import Mathlib

/-!
# Verification of the `baggie` bagging transform (`src/bagit.rs`)

This file gives a shallow embedding of the core of `baggie`, the function
`bag_directory` of `src/bagit.rs`, together with proofs about the embedding.

Modelling choices, in order of appearance:

* Machine integers of the source (`u64` byte counters, `u32` SHA-256 words,
  `u8` bytes) are modelled as `Nat` with explicit `% 2^32` / `% 256`
  reductions exactly where the hash algorithm wraps.  The payload byte
  counter (`u64 total_bytes`) is modelled as an unbounded `Nat`: the source
  relies on `u64` not overflowing for realistic payloads.
* SHA-256 (provided to the source by the `sha2` crate) is implemented here
  directly, operating on byte lists; it was checked against published test
  vectors (e.g. `sha256 "A" = 559aead0…fdffd`).
* The filesystem subtree rooted at the input path is modelled by `FsTree`:
  regular files carry either their byte content or a pending read error
  (`Except Unit (List Nat)`, the error standing for an `io::Error` raised
  when the file is opened/read during hashing), `other` stands for a
  non-regular entry such as a symbolic link (yielded by the walk with
  `file_type().is_file() = false`, never recursed into by a default
  `WalkDir`), `denied` stands for a directory whose enumeration fails
  during the recursive walk — e.g. an unreadable subdirectory.  Its entry
  is still yielded (stat goes through the parent) and `walkdir` then
  yields an `Err` for the failed descent, which the source drops through
  `.filter_map(|e| e.ok())`; the `denied` constructor carries the
  directory's actual on-disk children, which the walk therefore never
  sees even though they exist and are relocated with the directory.
  Finally `dir` is a readable directory with its ordered child list — the
  list order models the enumeration order of the OS.  `read_dir` of the
  bag root lists every immediate child (listing needs permissions only on
  the root, and `fs::rename` needs none on the child itself), so the
  relocation moves every entry, unreadable directories included; the
  per-entry `.filter_map(|e| e.ok())` on the `read_dir` iterator is
  vacuous in this model.
* Paths are joined with `/` (the Unix behaviour of the source); the
  source's `replace('\\', "/")` on the displayed relative path is kept as
  `replBack`.
* Rust's `Vec<String>::sort` orders `String`s bytewise; on UTF-8 encoded
  strings the bytewise order coincides with the lexicographic order of the
  code points, which is how `strLe` is defined here.  Both sorts of the
  source are modelled by `List.insertionSort`, which computes the same
  (stable-sort) result.
* `fs::write`, `fs::create_dir` and `fs::rename` are modelled as
  infallible; read errors during hashing and walk errors are modelled as
  described above.  The `io::Error` payload of `BagError::IoError` is not
  modelled.
-/

/-! ## SHA-256 over byte lists -/

/-- Reduction modulo `2^32`, the wrap-around of the `u32` arithmetic used by
SHA-256. -/
def w32 (n : Nat) : Nat := n % 4294967296

/-- 32-bit right rotation. -/
def rotr32 (k w : Nat) : Nat := w32 ((w >>> k) ||| (w <<< (32 - k)))

/-- The SHA-256 round constants. -/
def shaK : List Nat :=
  [1116352408, 1899447441, 3049323471, 3921009573, 961987163, 1508970993,
   2453635748, 2870763221, 3624381080, 310598401, 607225278, 1426881987,
   1925078388, 2162078206, 2614888103, 3248222580, 3835390401, 4022224774,
   264347078, 604807628, 770255983, 1249150122, 1555081692, 1996064986,
   2554220882, 2821834349, 2952996808, 3210313671, 3336571891, 3584528711,
   113926993, 338241895, 666307205, 773529912, 1294757372, 1396182291,
   1695183700, 1986661051, 2177026350, 2456956037, 2730485921, 2820302411,
   3259730800, 3345764771, 3516065817, 3600352804, 4094571909, 275423344,
   430227734, 506948616, 659060556, 883997877, 958139571, 1322822218,
   1537002063, 1747873779, 1955562222, 2024104815, 2227730452, 2361852424,
   2428436474, 2756734187, 3204031479, 3329325298]

/-- The eight working variables of the SHA-256 compression function. -/
structure Sha8 where
  a : Nat
  b : Nat
  c : Nat
  d : Nat
  e : Nat
  f : Nat
  g : Nat
  h : Nat

/-- The SHA-256 initial hash value. -/
def shaH0 : Sha8 :=
  ⟨1779033703, 3144134277, 1013904242, 2773480762, 1359893119, 2600822924, 528734635, 1541459225⟩

/-- SHA-256 message padding: append `0x80`, zeros to 56 mod 64, then the
bit length as 8 big-endian bytes. -/
def padMsg (m : List Nat) : List Nat :=
  let L := m.length
  let k := (119 - (L % 64)) % 64
  let bits := 8 * L
  m ++ [128] ++ List.replicate k 0 ++
    [(bits >>> 56) % 256, (bits >>> 48) % 256, (bits >>> 40) % 256, (bits >>> 32) % 256,
     (bits >>> 24) % 256, (bits >>> 16) % 256, (bits >>> 8) % 256, bits % 256]

/-- Cut a (padded) byte list into 64-byte blocks.  The first argument is
fuel, instantiated with the list length. -/
def toBlocks : Nat → List Nat → List (List Nat)
  | 0, _ => []
  | _ + 1, [] => []
  | fuel + 1, l => l.take 64 :: toBlocks fuel (l.drop 64)

/-- The first 16 message-schedule words of a block (big-endian). -/
def blockWords (b : List Nat) : List Nat :=
  (List.range 16).map (fun i =>
    (b.getD (4 * i) 0) <<< 24 + (b.getD (4 * i + 1) 0) <<< 16 +
    (b.getD (4 * i + 2) 0) <<< 8 + b.getD (4 * i + 3) 0)

/-- Extend 16 message-schedule words to 64. -/
def schedule (ws0 : List Nat) : List Nat :=
  (List.range 48).foldl
    (fun ws _ =>
      let n := ws.length
      let w15 := ws.getD (n - 15) 0
      let w2 := ws.getD (n - 2) 0
      let s0 := (rotr32 7 w15) ^^^ (rotr32 18 w15) ^^^ (w15 >>> 3)
      let s1 := (rotr32 17 w2) ^^^ (rotr32 19 w2) ^^^ (w2 >>> 10)
      ws ++ [w32 (ws.getD (n - 16) 0 + s0 + ws.getD (n - 7) 0 + s1)])
    ws0

/-- One SHA-256 round. -/
def round1 (st : Sha8) (ki wi : Nat) : Sha8 :=
  let S1 := (rotr32 6 st.e) ^^^ (rotr32 11 st.e) ^^^ (rotr32 25 st.e)
  let ch := (st.e &&& st.f) ^^^ ((st.e ^^^ 4294967295) &&& st.g)
  let t1 := w32 (st.h + S1 + ch + ki + wi)
  let S0 := (rotr32 2 st.a) ^^^ (rotr32 13 st.a) ^^^ (rotr32 22 st.a)
  let mj := (st.a &&& st.b) ^^^ (st.a &&& st.c) ^^^ (st.b &&& st.c)
  let t2 := w32 (S0 + mj)
  ⟨w32 (t1 + t2), st.a, st.b, st.c, w32 (st.d + t1), st.e, st.f, st.g⟩

/-- The SHA-256 compression function on one 64-byte block. -/
def compress (st : Sha8) (block : List Nat) : Sha8 :=
  let ws := schedule (blockWords block)
  let fin := (List.range 64).foldl (fun s i => round1 s (shaK.getD i 0) (ws.getD i 0)) st
  ⟨w32 (st.a + fin.a), w32 (st.b + fin.b), w32 (st.c + fin.c), w32 (st.d + fin.d),
   w32 (st.e + fin.e), w32 (st.f + fin.f), w32 (st.g + fin.g), w32 (st.h + fin.h)⟩

/-- SHA-256 of a byte list, as the final eight 32-bit words. -/
def sha256Words (m : List Nat) : Sha8 :=
  let p := padMsg m
  (toBlocks p.length p).foldl compress shaH0

/-- A single lowercase hexadecimal digit. -/
def hexDigit (n : Nat) : Char :=
  if n < 10 then Char.ofNat (48 + n) else Char.ofNat (87 + n)

/-- Two lowercase hexadecimal digits of a byte — the `{:x}` formatting that
the source applies to the 32-byte digest. -/
def hexByte (b : Nat) : List Char := [hexDigit (b / 16 % 16), hexDigit (b % 16)]

/-- The four big-endian bytes of a 32-bit word. -/
def wordBytes (w : Nat) : List Nat := [(w >>> 24) % 256, (w >>> 16) % 256, (w >>> 8) % 256, w % 256]

/-- SHA-256 digest of a byte list, as its 32 bytes. -/
def sha256Bytes (m : List Nat) : List Nat :=
  let s := sha256Words m
  wordBytes s.a ++ wordBytes s.b ++ wordBytes s.c ++ wordBytes s.d ++
  wordBytes s.e ++ wordBytes s.f ++ wordBytes s.g ++ wordBytes s.h

/-- SHA-256 digest as 64 lowercase hex characters — the value returned by
`calculate_sha256` of the source for a file with these content bytes. -/
def sha256Hex (m : List Nat) : String := String.mk ((sha256Bytes m).flatMap hexByte)

/-- The UTF-8 bytes of a string — `str::as_bytes` of the source. -/
def strBytes (s : String) : List Nat :=
  s.data.flatMap (fun c => (String.utf8EncodeChar c).map (·.toNat))

/-- `calculate_sha256_str` of the source: SHA-256 over the UTF-8 bytes of a
string, in lowercase hex. -/
def sha256HexStr (s : String) : String := sha256Hex (strBytes s)

/-! ## Strings: order, joining, path helpers -/

/-- Lexicographic order on character lists by code point.  On UTF-8 encoded
strings this coincides with the bytewise lexicographic order that Rust's
`String` ordering (used by `Vec::sort` in the source) applies. -/
def charListLe : List Char → List Char → Bool
  | [], _ => true
  | _ :: _, [] => false
  | a :: as, b :: bs =>
      a.toNat < b.toNat || (a.toNat == b.toNat && charListLe as bs)

/-- The string order used to model `manifest_entries.sort()`. -/
def strLe (a b : String) : Prop := charListLe a.data b.data = true

instance : DecidableRel strLe := fun _ _ => instDecidableEqBool _ _

/-- `Vec::join(sep)` of the source: interpose `sep` between the elements. -/
def joinSep (sep : String) : List String → String
  | [] => ""
  | [x] => x
  | x :: xs => x ++ sep ++ joinSep sep xs

/-- `relative_path.to_string_lossy().replace('\\', "/")` of the source,
applied characterwise. -/
def replBack (s : String) : String :=
  String.mk (s.data.map (fun c => if c = '\\' then '/' else c))

/-- Join a path and a child name the way the walk of the source displays
relative paths (empty base for the `min_depth(1)` walk of the root). -/
def joinPath (pre n : String) : String :=
  if pre = "" then n else pre ++ "/" ++ n

/-- `split_whitespace().last()` of the source: the last maximal run of
non-whitespace characters, if any. -/
def lastToken (s : String) : Option String :=
  match s.data.reverse.dropWhile Char.isWhitespace with
  | [] => none
  | l => some (String.mk ((l.takeWhile (fun c => !c.isWhitespace)).reverse))

/-- The comparator of `tagmanifest_entries.sort_by`: compare the last
whitespace-separated token (`Option` ordered with `none` first, as Rust
orders `Option<&str>`). -/
def tagLe (a b : String) : Prop :=
  (match lastToken a, lastToken b with
   | none, _ => true
   | some _, none => false
   | some x, some y => charListLe x.data y.data) = true

instance : DecidableRel tagLe := fun _ _ => instDecidableEqBool _ _

/-! ## The filesystem model -/

/-- A node of the filesystem subtree under the input path.  See the header
comment for the reading of each constructor. -/
inductive FsTree where
  | file : Except Unit (List Nat) → FsTree
  | other : FsTree
  | denied : List (String × FsTree) → FsTree
  | dir : List (String × FsTree) → FsTree

/-- `file_type().is_file()` of a walked entry. -/
def FsTree.isFile : FsTree → Bool
  | .file _ => true
  | _ => false

/-- Whether the walk errors on this entry (and `.filter_map(|e| e.ok())`
drops it). -/
def FsTree.isDenied : FsTree → Bool
  | .denied _ => true
  | _ => false

mutual
/-- One entry of the recursive `WalkDir` enumeration: visit the node at
relative path `p`, then (for a readable directory) its contents.  A
`denied` directory's own entry is yielded (stat needs only the parent),
then the failed descent yields the walk's `Err` case — its children are
never enumerated. -/
def walkNode (p : String) : FsTree → List (Except Unit (String × FsTree))
  | .denied es => [.ok (p, .denied es), .error ()]
  | .dir es => .ok (p, .dir es) :: walkList p es
  | t => [.ok (p, t)]

/-- The recursive `WalkDir` enumeration of a child list, in list order. -/
def walkList (pre : String) : List (String × FsTree) → List (Except Unit (String × FsTree))
  | [] => []
  | (n, t) :: rest => walkNode (joinPath pre n) t ++ walkList pre rest
end

/-- The walk with its error entries dropped — `.filter_map(|e| e.ok())` of
the source. -/
def goodWalk (pre : String) (es : List (String × FsTree)) : List (String × FsTree) :=
  (walkList pre es).filterMap Except.toOption

/-- `total_files` of the source: regular files among the surviving entries
of the `min_depth(1)` walk of the input directory. -/
def numFilesW (es : List (String × FsTree)) : Nat :=
  ((goodWalk "" es).filter (fun e => e.2.isFile)).length

/-- Select a regular file from a walked entry, keeping its relative path
and content. -/
def fileEntry : String × FsTree → Option (String × Except Unit (List Nat))
  | (p, .file c) => some (p, c)
  | _ => none

/-- The regular files the recursive walk of `data/` *enumerates* (rooted
at relative path `"data"`, no `min_depth`, so the `data` directory itself
is walked and then discarded by the `is_file` filter), in walk order.
Files inside a `denied` directory exist on disk but are not here: the
walk yields an `Err` for the failed descent and `.filter_map(|e| e.ok())`
drops it. -/
def dataFiles (moved : List (String × FsTree)) : List (String × Except Unit (List Nat)) :=
  ((walkNode "data" (.dir moved)).filterMap Except.toOption).filterMap fileEntry

mutual
/-- Every regular file actually on disk under a node at relative path `p`,
including those inside `denied` directories that no walk can enumerate. -/
def diskFiles (p : String) : FsTree → List (String × Except Unit (List Nat))
  | .file c => [(p, c)]
  | .other => []
  | .denied es => diskFilesL p es
  | .dir es => diskFilesL p es

/-- Every regular file actually on disk under a child list. -/
def diskFilesL (pre : String) : List (String × FsTree) → List (String × Except Unit (List Nat))
  | [] => []
  | (n, t) :: rest => diskFiles (joinPath pre n) t ++ diskFilesL pre rest
end

/-! ## The bagging transform -/

/-- `BagError` of the source.  The `io::Error` cause of `IoError` is not
modelled. -/
inductive BagError where
  | NotADirectory : BagError
  | IoError : BagError
  | AlreadyABag : BagError
deriving DecidableEq

/-- `Progress` of the source. -/
inductive Progress where
  | Started : Nat → Progress
  | Moving : Nat → String → Progress
  | Checksumming : Nat → String → Progress
  | Done : String → Progress
  | Error : String → Progress
deriving DecidableEq

/-- The contents and statistics the success path of `bag_directory`
computes: the four tag files exactly as written, and the payload oxum
components. -/
structure BagOutputs where
  bagitTxt : String
  manifestTxt : String
  bagInfoTxt : String
  tagmanifestTxt : String
  totalBytes : Nat
  fileCount : Nat

/-- A complete run of `bag_directory`: the progress events sent (in send
order), the tree at the input path when the call returns, and the return
value. -/
structure RunResult where
  events : List Progress
  post : FsTree
  outcome : Except BagError BagOutputs

/-- `path.join(name).exists()` of the source, for a top-level `name`. -/
def hasEntry (es : List (String × FsTree)) (n : String) : Bool :=
  es.any (fun e => e.1 == n)

/-- The `Moving` events of the relocation loop, 1-based from `i + 1`. -/
def moveEvents (i : Nat) : List String → List Progress
  | [] => []
  | n :: rest => Progress.Moving (i + 1) n :: moveEvents (i + 1) rest

/-- The checksumming loop of the source over the walked regular files of
`data/`: for each file send `Checksumming` (1-based from `i + 1`), then
hash it — a read error aborts the run — and record the manifest line, the
byte count and the file count. -/
def checksumFrom (i : Nat) :
    List (String × Except Unit (List Nat)) →
      List Progress × Except Unit (List String × Nat × Nat)
  | [] => ([], .ok ([], 0, 0))
  | (p, c) :: rest =>
    let ev := Progress.Checksumming (i + 1) p
    match c with
    | .error _ => ([ev], .error ())
    | .ok bytes =>
      match checksumFrom (i + 1) rest with
      | (evs, .error e) => (ev :: evs, .error e)
      | (evs, .ok (ms, b, n)) =>
          (ev :: evs, .ok ((sha256Hex bytes ++ "  " ++ replBack p) :: ms, bytes.length + b, n + 1))

/-- The fixed content of `bagit.txt`. -/
def bagitContent : String := "BagIt-Version: 0.97\nTag-File-Character-Encoding: UTF-8\n"

/-- `manifest_entries.sort()` of the source (a sort of `String`s in byte
order). -/
def sortStrings (l : List String) : List String := List.insertionSort strLe l

/-- `tagmanifest_entries.sort_by(...)` of the source (a stable sort by last
whitespace token). -/
def tagSort (l : List String) : List String := List.insertionSort tagLe l

/-- `bag-info.txt` as formatted by the source, given the `Bagging-Date`
string and the payload statistics. -/
def bagInfoFor (date : String) (totalBytes fileCount : Nat) : String :=
  "Bag-Software-Agent: baggie 0.1.1\nBagging-Date: " ++ date ++
    "\nPayload-Oxum: " ++ toString totalBytes ++ "." ++ toString fileCount ++ "\n"

/-- The three tag-manifest lines of the source, in construction order. -/
def tagEntriesFor (bagInfoC manifestC : String) : List String :=
  [sha256HexStr bagInfoC ++ "  bag-info.txt",
   sha256HexStr bagitContent ++ "  bagit.txt",
   sha256HexStr manifestC ++ "  manifest-sha256.txt"]

/-- The top-level entries the relocation loop moves into `data/`: every
immediate child.  `read_dir` of the bag root lists all of them (listing
needs permissions only on the root itself), `fs::rename` needs no
permission on the child being moved, and no child is named `data` when
the loop runs; so even an unreadable directory is relocated wholesale,
with the on-disk contents the walk cannot see.  The source's
`.filter_map(|e| e.ok())` on the `read_dir` iterator is vacuous here. -/
def movedOf (es : List (String × FsTree)) : List (String × FsTree) := es

/-- The embedding of `bag_directory path progress_tx`.

`root` is the filesystem subtree at `path` when the call is made, `date`
the formatted local date (`chrono::Local::now().format("%Y-%m-%d")`), and
`path` the textual path (only reported back in the `Done` event).  The
phases follow the source line by line: validation; the counting walk;
`create_dir(data)`; the relocation loop over the immediate children;
the checksumming loop over the walked regular files of `data/`; and the
construction of the four tag files. -/
def bagDir (entries : List (String × FsTree)) (date path : String) : RunResult :=
  if hasEntry entries "bagit.txt" || hasEntry entries "data" then
    ⟨[], .dir entries, .error .AlreadyABag⟩
  else
    let totalFiles := numFilesW entries
    let moved := movedOf entries
    let evsMove := moveEvents 0 (moved.map (·.1))
    match checksumFrom 0 (dataFiles moved) with
    | (evsCk, .error _) =>
        ⟨Progress.Started totalFiles :: (evsMove ++ evsCk),
         .dir [("data", .dir moved)], .error .IoError⟩
    | (evsCk, .ok (ms, totalBytes, fileCount)) =>
        let manifestContent := joinSep "\n" (sortStrings ms) ++ "\n"
        let bagInfoContent := bagInfoFor date totalBytes fileCount
        let tagmanifestContent :=
          joinSep "\n" (tagSort (tagEntriesFor bagInfoContent manifestContent)) ++ "\n"
        ⟨Progress.Started totalFiles :: (evsMove ++ evsCk ++ [Progress.Done path]),
         .dir (("data", .dir moved) ::
           [("bagit.txt", .file (.ok (strBytes bagitContent))),
            ("manifest-sha256.txt", .file (.ok (strBytes manifestContent))),
            ("bag-info.txt", .file (.ok (strBytes bagInfoContent))),
            ("tagmanifest-sha256.txt", .file (.ok (strBytes tagmanifestContent)))]),
         .ok ⟨bagitContent, manifestContent, bagInfoContent, tagmanifestContent,
              totalBytes, fileCount⟩⟩

/-- The two validation steps wrapping `bagDir`: the input must be a
directory, and must not already look like a bag. -/
def bag (root : FsTree) (date path : String) : RunResult :=
  match root with
  | .dir entries => bagDir entries date path
  | _ => ⟨[], root, .error .NotADirectory⟩

/-- The child list of the `data/` directory of a bagged tree. -/
def dataDirOf (t : FsTree) : List (String × FsTree) :=
  match t with
  | .dir es =>
    match es.find? (fun e => e.1 == "data") with
    | some (_, .dir ds) => ds
    | _ => []
  | _ => []

/-! ## Derived descriptions of the loops -/

/-- The content bytes of a successfully read file (the error case is never
reached on a successful run). -/
def okBytes : Except Unit (List Nat) → List Nat
  | .ok b => b
  | .error _ => []

/-- The manifest line the source records for a walked regular file. -/
def lineOf (x : String × Except Unit (List Nat)) : String :=
  sha256Hex (okBytes x.2) ++ "  " ++ replBack x.1

/-- The `Checksumming` events of a full pass over `files`, 1-based from
`i + 1`. -/
def ckEvents (i : Nat) : List (String × Except Unit (List Nat)) → List Progress
  | [] => []
  | (p, _) :: rest => Progress.Checksumming (i + 1) p :: ckEvents (i + 1) rest

/-- Every file of the list is readable. -/
def allOk (files : List (String × Except Unit (List Nat))) : Bool :=
  files.all (fun x => x.2.isOk)

/-- The sum of the byte sizes of the files. -/
def sizesSum (files : List (String × Except Unit (List Nat))) : Nat :=
  (files.map (fun x => (okBytes x.2).length)).sum

/-- The index of a `Moving` event. -/
def mvIdx : Progress → Option Nat
  | .Moving j _ => some j
  | _ => none

/-- The index of a `Checksumming` event. -/
def ckIdx : Progress → Option Nat
  | .Checksumming j _ => some j
  | _ => none

/-- The lines of `manifest-sha256.txt` produced for an input child list, in
file order and then sorted. -/
def manifestLinesFor (es : List (String × FsTree)) : List String :=
  sortStrings ((dataFiles (movedOf es)).map lineOf)

/-- The child list of a directory node (empty for non-directories). -/
def topEntriesOf : FsTree → List (String × FsTree)
  | .dir es => es
  | _ => []

/-- `path.is_dir()` of the source. -/
def FsTree.isDir : FsTree → Bool
  | .dir _ => true
  | _ => false

/-- A lowercase hexadecimal character. -/
def lowerHex (c : Char) : Bool := "0123456789abcdef".data.contains c

/-! ## The run result of a successful bagging, in closed form -/

/-- The content of `manifest-sha256.txt` for an input child list. -/
def manifestTxtFor (es : List (String × FsTree)) : String :=
  joinSep "\n" (manifestLinesFor es) ++ "\n"

/-- The content of `bag-info.txt` for an input child list and date. -/
def bagInfoTxtFor (es : List (String × FsTree)) (date : String) : String :=
  bagInfoFor date (sizesSum (dataFiles (movedOf es))) (dataFiles (movedOf es)).length

/-- The content of `tagmanifest-sha256.txt` for an input child list and
date. -/
def tagmanifestTxtFor (es : List (String × FsTree)) (date : String) : String :=
  joinSep "\n" (tagSort (tagEntriesFor (bagInfoTxtFor es date) (manifestTxtFor es))) ++ "\n"

/-- The `BagOutputs` of a successful run. -/
def outputsFor (es : List (String × FsTree)) (date : String) : BagOutputs :=
  ⟨bagitContent, manifestTxtFor es, bagInfoTxtFor es date, tagmanifestTxtFor es date,
   sizesSum (dataFiles (movedOf es)), (dataFiles (movedOf es)).length⟩

/-- The event trace of a successful run. -/
def eventsFor (es : List (String × FsTree)) (path : String) : List Progress :=
  Progress.Started (numFilesW es) ::
    (moveEvents 0 ((movedOf es).map (·.1)) ++ ckEvents 0 (dataFiles (movedOf es)) ++
      [Progress.Done path])

/-- The tree at the input path after a successful run. -/
def postFor (es : List (String × FsTree)) (date : String) : FsTree :=
  .dir (("data", .dir (movedOf es)) ::
    [("bagit.txt", .file (.ok (strBytes bagitContent))),
     ("manifest-sha256.txt", .file (.ok (strBytes (manifestTxtFor es)))),
     ("bag-info.txt", .file (.ok (strBytes (bagInfoTxtFor es date)))),
     ("tagmanifest-sha256.txt", .file (.ok (strBytes (tagmanifestTxtFor es date))))])

/-! ## Clean trees, file extraction, and enumeration-order equivalence -/

mutual
/-- A node containing only readable regular files and directories — the
hypothesis of the spec's payload-totality-style properties («a tree
containing only regular files and subdirectories», not mutated during the
run). -/
def FsTree.cleanN : FsTree → Bool
  | .file (.ok _) => true
  | .file (.error _) => false
  | .other => false
  | .denied _ => false
  | .dir es => cleanL es

/-- All entries of the child list are clean. -/
def cleanL : List (String × FsTree) → Bool
  | [] => true
  | (_, t) :: rest => t.cleanN && cleanL rest
end

/-- The regular files yielded by walking one node. -/
def filesOfNode (p : String) (t : FsTree) : List (String × Except Unit (List Nat)) :=
  ((walkNode p t).filterMap Except.toOption).filterMap fileEntry

/-- The regular files yielded by walking a child list. -/
def filesOfList (pre : String) (es : List (String × FsTree)) :
    List (String × Except Unit (List Nat)) :=
  ((walkList pre es).filterMap Except.toOption).filterMap fileEntry

mutual
/-- Two trees with the same structure and file contents, whose directory
child lists may be enumerated in different orders.  The constructors mirror
`List.Perm`, with a pointwise congruence through directories. -/
inductive TEquiv : FsTree → FsTree → Prop where
  | file (c : Except Unit (List Nat)) : TEquiv (.file c) (.file c)
  | other : TEquiv .other .other
  | denied {es1 es2 : List (String × FsTree)} :
      FEquiv es1 es2 → TEquiv (.denied es1) (.denied es2)
  | dir {es1 es2 : List (String × FsTree)} : FEquiv es1 es2 → TEquiv (.dir es1) (.dir es2)

/-- Permutation-up-to-`TEquiv` of directory child lists. -/
inductive FEquiv : List (String × FsTree) → List (String × FsTree) → Prop where
  | nil : FEquiv [] []
  | cons (n : String) {t1 t2 : FsTree} {r1 r2 : List (String × FsTree)} :
      TEquiv t1 t2 → FEquiv r1 r2 → FEquiv ((n, t1) :: r1) ((n, t2) :: r2)
  | swap (x y : String × FsTree) {l1 l2 : List (String × FsTree)} :
      FEquiv l1 l2 → FEquiv (x :: y :: l1) (y :: x :: l2)
  | trans {l1 l2 l3 : List (String × FsTree)} :
      FEquiv l1 l2 → FEquiv l2 l3 → FEquiv l1 l3
end

/-- The 55 UTF-8 bytes of `bagitContent` (each `\n` a single `0x0A`). -/
def bagitBytes : List Nat :=
  [66, 97, 103, 73, 116, 45, 86, 101, 114, 115, 105, 111, 110, 58, 32, 48, 46, 57, 55, 10,
   84, 97, 103, 45, 70, 105, 108, 101, 45, 67, 104, 97, 114, 97, 99, 116, 101, 114, 45,
   69, 110, 99, 111, 100, 105, 110, 103, 58, 32, 85, 84, 70, 45, 56, 10]

/-! ## The string order: totality, transitivity, antisymmetry -/

theorem charToNat_inj {a b : Char} (h : a.toNat = b.toNat) : a = b :=
  Char.ext (UInt32.ext (by simpa [Char.toNat, UInt32.toNat] using h))

theorem charListLe_total : ∀ a b, charListLe a b = true ∨ charListLe b a = true := by
  intro a
  induction a with
  | nil => intro b; left; simp [charListLe]
  | cons x xs ih =>
    intro b
    cases b with
    | nil => right; simp [charListLe]
    | cons y ys =>
      simp only [charListLe, Bool.or_eq_true, Bool.and_eq_true, decide_eq_true_eq, beq_iff_eq]
      rcases Nat.lt_trichotomy x.toNat y.toNat with h | h | h
      · left; left; simpa using h
      · rcases ih ys with h2 | h2
        · left; right; exact ⟨by simpa using h, h2⟩
        · right; right; exact ⟨by simpa using h.symm, h2⟩
      · right; left; simpa using h

theorem charListLe_trans :
    ∀ a b c, charListLe a b = true → charListLe b c = true → charListLe a c = true := by
  intro a
  induction a with
  | nil => intro b c _ _; simp [charListLe]
  | cons x xs ih =>
    intro b c hab hbc
    cases b with
    | nil => simp [charListLe] at hab
    | cons y ys =>
      cases c with
      | nil => simp [charListLe] at hbc
      | cons z zs =>
        simp only [charListLe, Bool.or_eq_true, Bool.and_eq_true, decide_eq_true_eq,
          beq_iff_eq] at hab hbc ⊢
        rcases hab with h1 | ⟨h1, h1r⟩ <;> rcases hbc with h2 | ⟨h2, h2r⟩
        · left; omega
        · left; omega
        · left; omega
        · right; exact ⟨by omega, ih ys zs h1r h2r⟩

theorem charListLe_antisymm :
    ∀ a b, charListLe a b = true → charListLe b a = true → a = b := by
  intro a
  induction a with
  | nil =>
    intro b _ hba
    cases b with
    | nil => rfl
    | cons y ys => simp [charListLe] at hba
  | cons x xs ih =>
    intro b hab hba
    cases b with
    | nil => simp [charListLe] at hab
    | cons y ys =>
      simp only [charListLe, Bool.or_eq_true, Bool.and_eq_true, decide_eq_true_eq,
        beq_iff_eq] at hab hba
      rcases hab with h1 | ⟨h1, h1r⟩ <;> rcases hba with h2 | ⟨h2, h2r⟩ <;> try omega
      have hxy : x = y := charToNat_inj h1
      rw [hxy, ih ys h1r h2r]

instance : IsTotal String strLe :=
  ⟨fun a b => charListLe_total a.data b.data⟩

instance : IsTrans String strLe :=
  ⟨fun a b c hab hbc => charListLe_trans a.data b.data c.data hab hbc⟩

instance : IsAntisymm String strLe :=
  ⟨fun a b hab hba => String.ext (charListLe_antisymm a.data b.data hab hba)⟩

theorem sortStrings_sorted (l : List String) : List.Sorted strLe (sortStrings l) :=
  List.sorted_insertionSort strLe l

theorem sortStrings_perm (l : List String) : (sortStrings l).Perm l :=
  List.perm_insertionSort strLe l

/-! ## String appending helpers -/

theorem string_mk_append (l1 l2 : List Char) :
    String.mk l1 ++ String.mk l2 = String.mk (l1 ++ l2) :=
  String.ext (by simp [String.data_append])

theorem replBack_append (a b : String) : replBack (a ++ b) = replBack a ++ replBack b := by
  unfold replBack
  rw [string_mk_append]
  exact congrArg String.mk (by simp [String.data_append])

theorem replBack_data_lit : replBack "data/" = "data/" := by decide

theorem slash_append_ne_empty (a b : String) : a ++ "/" ++ b ≠ "" := by
  intro h
  have := congrArg String.data h
  simp [String.data_append] at this

theorem checksumFrom_of_allOk (files : List (String × Except Unit (List Nat))) :
    ∀ i, allOk files = true →
      checksumFrom i files =
        (ckEvents i files, .ok (files.map lineOf, sizesSum files, files.length)) := by
  induction files with
  | nil => intro i _; rfl
  | cons x rest ih =>
    intro i hall
    obtain ⟨p, c⟩ := x
    simp only [allOk, List.all_cons, Bool.and_eq_true] at hall
    obtain ⟨hc, hrest⟩ := hall
    cases c with
    | error e => simp [Except.isOk, Except.toBool] at hc
    | ok bytes =>
      simp only [checksumFrom, ih (i + 1) hrest, ckEvents, lineOf, sizesSum, okBytes,
        List.map_cons, List.sum_cons, List.length_cons]

theorem checksumFrom_allOk_of_ok (files : List (String × Except Unit (List Nat))) :
    ∀ i evs r, checksumFrom i files = (evs, .ok r) → allOk files = true := by
  induction files with
  | nil => intro i evs r _; rfl
  | cons x rest ih =>
    intro i evs r h
    obtain ⟨p, c⟩ := x
    cases c with
    | error e => simp [checksumFrom] at h
    | ok bytes =>
      simp only [checksumFrom] at h
      rcases h2 : checksumFrom (i + 1) rest with ⟨evs2, r2⟩
      rw [h2] at h
      cases r2 with
      | error e2 => simp at h
      | ok v =>
        obtain ⟨ms, b, n⟩ := v
        simp only [allOk, List.all_cons, Except.isOk, Bool.true_and]
        exact ih (i + 1) evs2 (ms, b, n) h2

theorem checksumFrom_error_of_bad (files : List (String × Except Unit (List Nat))) :
    ∀ i, allOk files = false → (checksumFrom i files).2 = .error () := by
  induction files with
  | nil => intro i h; simp [allOk] at h
  | cons x rest ih =>
    intro i hbad
    obtain ⟨p, c⟩ := x
    cases c with
    | error e => simp [checksumFrom]
    | ok bytes =>
      simp only [allOk, List.all_cons, Except.isOk, Except.toBool, Bool.true_and] at hbad
      simp only [checksumFrom]
      rcases h2 : checksumFrom (i + 1) rest with ⟨evs2, r2⟩
      have herr := ih (i + 1) hbad
      rw [h2] at herr
      simp only at herr
      subst herr
      simp

theorem mem_checksumFrom_events (files : List (String × Except Unit (List Nat))) :
    ∀ i e, e ∈ (checksumFrom i files).1 → ∃ j p, e = .Checksumming j p := by
  induction files with
  | nil => intro i e h; simp [checksumFrom] at h
  | cons x rest ih =>
    intro i e h
    obtain ⟨p, c⟩ := x
    cases c with
    | error e2 =>
      simp only [checksumFrom, List.mem_singleton] at h
      exact ⟨i + 1, p, h⟩
    | ok bytes =>
      simp only [checksumFrom] at h
      rcases h2 : checksumFrom (i + 1) rest with ⟨evs2, r2⟩
      rw [h2] at h
      cases r2 with
      | error e2 =>
        simp only [List.mem_cons] at h
        rcases h with h | h
        · exact ⟨i + 1, p, h⟩
        · exact ih (i + 1) e (by rw [h2]; exact h)
      | ok v =>
        obtain ⟨ms, b, n⟩ := v
        simp only [List.mem_cons] at h
        rcases h with h | h
        · exact ⟨i + 1, p, h⟩
        · exact ih (i + 1) e (by rw [h2]; exact h)

theorem mem_moveEvents (names : List String) :
    ∀ i e, e ∈ moveEvents i names → ∃ j p, e = .Moving j p := by
  induction names with
  | nil => intro i e h; simp [moveEvents] at h
  | cons n rest ih =>
    intro i e h
    simp only [moveEvents, List.mem_cons] at h
    rcases h with h | h
    · exact ⟨i + 1, n, h⟩
    · exact ih (i + 1) e h

theorem ckEvents_filterMap_ckIdx (files : List (String × Except Unit (List Nat))) :
    ∀ i, (ckEvents i files).filterMap ckIdx = List.range' (i + 1) files.length := by
  induction files with
  | nil => intro i; simp [ckEvents]
  | cons x rest ih =>
    intro i
    obtain ⟨p, c⟩ := x
    simp only [ckEvents, List.filterMap_cons, ckIdx, List.length_cons, List.range'_succ]
    rw [ih (i + 1)]

theorem moveEvents_filterMap_mvIdx (names : List String) :
    ∀ i, (moveEvents i names).filterMap mvIdx = List.range' (i + 1) names.length := by
  induction names with
  | nil => intro i; simp [moveEvents]
  | cons n rest ih =>
    intro i
    simp only [moveEvents, List.filterMap_cons, mvIdx, List.length_cons, List.range'_succ]
    rw [ih (i + 1)]

theorem moveEvents_filterMap_ckIdx (names : List String) :
    ∀ i, (moveEvents i names).filterMap ckIdx = [] := by
  induction names with
  | nil => intro i; simp [moveEvents]
  | cons n rest ih =>
    intro i
    simp only [moveEvents, List.filterMap_cons, ckIdx]
    exact ih (i + 1)

theorem ckEvents_filterMap_mvIdx (files : List (String × Except Unit (List Nat))) :
    ∀ i, (ckEvents i files).filterMap mvIdx = [] := by
  induction files with
  | nil => intro i; simp [ckEvents]
  | cons x rest ih =>
    intro i
    obtain ⟨p, c⟩ := x
    simp only [ckEvents, List.filterMap_cons, mvIdx]
    exact ih (i + 1)

/-! ## Walk lemmas -/

theorem goodWalk_cons (pre n : String) (t : FsTree) (rest : List (String × FsTree)) :
    goodWalk pre ((n, t) :: rest) =
      (walkNode (joinPath pre n) t).filterMap Except.toOption ++ goodWalk pre rest := by
  simp [goodWalk, walkList, List.filterMap_append]

theorem goodWalk_movedOf (es : List (String × FsTree)) :
    ∀ pre, goodWalk pre (movedOf es) = goodWalk pre es :=
  fun _ => rfl

mutual
theorem walkNode_nodes (p p2 : String) (t : FsTree) :
    (walkNode p t).map (Except.map Prod.snd) = (walkNode p2 t).map (Except.map Prod.snd) := by
  cases t with
  | denied es => rfl
  | file c => rfl
  | other => rfl
  | dir es =>
    simp only [walkNode, List.map_cons, Except.map]
    rw [walkList_nodes p p2 es]

theorem walkList_nodes (pre pre2 : String) (es : List (String × FsTree)) :
    (walkList pre es).map (Except.map Prod.snd) =
      (walkList pre2 es).map (Except.map Prod.snd) := by
  cases es with
  | nil => rfl
  | cons x rest =>
    obtain ⟨n, t⟩ := x
    simp only [walkList, List.map_append]
    rw [walkNode_nodes (joinPath pre n) (joinPath pre2 n) t, walkList_nodes pre pre2 rest]
end

theorem filter_isFile_length_map (l : List (Except Unit (String × FsTree))) :
    ((l.filterMap Except.toOption).filter (fun e => e.2.isFile)).length =
      (((l.map (Except.map Prod.snd)).filterMap Except.toOption).filter
        (fun t => t.isFile)).length := by
  induction l with
  | nil => rfl
  | cons x rest ih =>
    cases x with
    | error e => simpa [Except.toOption, Except.map] using ih
    | ok v =>
      obtain ⟨q, t⟩ := v
      by_cases hf : t.isFile
      · simpa [Except.toOption, Except.map, List.filter_cons, hf] using ih
      · simpa [Except.toOption, Except.map, List.filter_cons, hf] using ih

theorem goodWalk_files_length (pre pre2 : String) (es : List (String × FsTree)) :
    ((goodWalk pre es).filter (fun e => e.2.isFile)).length =
      ((goodWalk pre2 es).filter (fun e => e.2.isFile)).length := by
  unfold goodWalk
  rw [filter_isFile_length_map, filter_isFile_length_map, walkList_nodes pre pre2 es]

theorem filterMap_fileEntry_length (l : List (String × FsTree)) :
    (l.filterMap fileEntry).length = (l.filter (fun e => e.2.isFile)).length := by
  induction l with
  | nil => rfl
  | cons x rest ih =>
    obtain ⟨q, t⟩ := x
    cases t with
    | file c => simpa [fileEntry, List.filter_cons, FsTree.isFile] using ih
    | other => simpa [fileEntry, List.filter_cons, FsTree.isFile] using ih
    | denied => simpa [fileEntry, List.filter_cons, FsTree.isFile] using ih
    | dir es2 => simpa [fileEntry, List.filter_cons, FsTree.isFile] using ih

theorem dataFiles_eq (moved : List (String × FsTree)) :
    dataFiles moved = (goodWalk "data" moved).filterMap fileEntry := by
  simp [dataFiles, walkNode, goodWalk, Except.toOption, fileEntry, List.filterMap_cons]

theorem dataFiles_length (es : List (String × FsTree)) :
    (dataFiles (movedOf es)).length = numFilesW es := by
  rw [dataFiles_eq, filterMap_fileEntry_length, goodWalk_files_length "data" "" (movedOf es),
    goodWalk_movedOf es ""]
  rfl

mutual
theorem walkNode_path_shape (p : String) (t : FsTree) (hp : p ≠ "") :
    ∀ q u, (q, u) ∈ (walkNode p t).filterMap Except.toOption →
      q = p ∨ ∃ r, q = p ++ "/" ++ r := by
  cases t with
  | denied es =>
    intro q u h
    simp only [walkNode, List.filterMap_cons, Except.toOption, List.filterMap_nil,
      List.mem_singleton, Prod.mk.injEq] at h
    exact Or.inl h.1
  | file c =>
    intro q u h
    simp only [walkNode, List.filterMap_cons, Except.toOption, List.filterMap_nil,
      List.mem_singleton, Prod.mk.injEq] at h
    exact Or.inl h.1
  | other =>
    intro q u h
    simp only [walkNode, List.filterMap_cons, Except.toOption, List.filterMap_nil,
      List.mem_singleton, Prod.mk.injEq] at h
    exact Or.inl h.1
  | dir es =>
    intro q u h
    simp only [walkNode, List.filterMap_cons, Except.toOption, List.mem_cons,
      Prod.mk.injEq] at h
    rcases h with ⟨hq, _⟩ | h
    · exact Or.inl hq
    · exact Or.inr (walkList_path_shape p es hp q u h)

theorem walkList_path_shape (pre : String) (es : List (String × FsTree)) (hpre : pre ≠ "") :
    ∀ q u, (q, u) ∈ (walkList pre es).filterMap Except.toOption →
      ∃ r, q = pre ++ "/" ++ r := by
  cases es with
  | nil => intro q u h; simp [walkList] at h
  | cons x rest =>
    obtain ⟨n, t⟩ := x
    intro q u h
    simp only [walkList, List.filterMap_append, List.mem_append] at h
    have hjoin : joinPath pre n = pre ++ "/" ++ n := by simp [joinPath, hpre]
    rcases h with h | h
    · have hne : joinPath pre n ≠ "" := by rw [hjoin]; exact slash_append_ne_empty pre n
      rcases walkNode_path_shape (joinPath pre n) t hne q u h with hq | ⟨r, hq⟩
      · exact ⟨n, by rw [hq, hjoin]⟩
      · refine ⟨n ++ "/" ++ r, ?_⟩
        rw [hq, hjoin]
        simp [String.append_assoc]
    · exact walkList_path_shape pre rest hpre q u h
end

theorem mem_filterMap_fileEntry (l : List (String × FsTree)) :
    ∀ p c, (p, c) ∈ l.filterMap fileEntry → (p, FsTree.file c) ∈ l := by
  induction l with
  | nil => intro p c h; simp at h
  | cons x rest ih =>
    obtain ⟨q, t⟩ := x
    intro p c h
    cases t with
    | file c2 =>
      simp only [List.filterMap_cons, fileEntry, List.mem_cons, Prod.mk.injEq] at h
      rcases h with ⟨h1, h2⟩ | h
      · exact List.mem_cons.mpr (Or.inl (by rw [h1, h2]))
      · exact List.mem_cons.mpr (Or.inr (ih p c h))
    | other =>
      simp only [List.filterMap_cons, fileEntry] at h
      exact List.mem_cons.mpr (Or.inr (ih p c h))
    | denied =>
      simp only [List.filterMap_cons, fileEntry] at h
      exact List.mem_cons.mpr (Or.inr (ih p c h))
    | dir es2 =>
      simp only [List.filterMap_cons, fileEntry] at h
      exact List.mem_cons.mpr (Or.inr (ih p c h))

theorem dataFiles_path (moved : List (String × FsTree)) :
    ∀ p c, (p, c) ∈ dataFiles moved → ∃ r, p = "data/" ++ r := by
  intro p c h
  rw [dataFiles_eq] at h
  have hmem := mem_filterMap_fileEntry _ p c h
  have hshape := walkList_path_shape "data" moved (by decide) p (.file c) hmem
  rcases hshape with ⟨r, hr⟩
  exact ⟨r, by rw [hr]; exact congrArg (fun s => s ++ r) (by decide)⟩

theorem bag_eq_of_ok (entries : List (String × FsTree)) (date path : String)
    (hb : hasEntry entries "bagit.txt" = false) (hd : hasEntry entries "data" = false)
    (hok : allOk (dataFiles (movedOf entries)) = true) :
    bag (.dir entries) date path =
      ⟨eventsFor entries path, postFor entries date, .ok (outputsFor entries date)⟩ := by
  show bagDir entries date path = _
  unfold bagDir
  rw [hb, hd]
  simp only [Bool.or_self, Bool.false_eq_true, if_false]
  rw [checksumFrom_of_allOk _ 0 hok]
  simp only [eventsFor, postFor, outputsFor, manifestTxtFor, manifestLinesFor,
    bagInfoTxtFor, tagmanifestTxtFor]

theorem bag_ok_cond (entries : List (String × FsTree)) (date path : String)
    (h : (bag (.dir entries) date path).outcome.isOk = true) :
    hasEntry entries "bagit.txt" = false ∧ hasEntry entries "data" = false ∧
      allOk (dataFiles (movedOf entries)) = true := by
  replace h : (bagDir entries date path).outcome.isOk = true := h
  by_cases hb : hasEntry entries "bagit.txt" = true
  · exfalso
    unfold bagDir at h
    rw [hb] at h
    simp [Except.isOk, Except.toBool] at h
  by_cases hd : hasEntry entries "data" = true
  · exfalso
    unfold bagDir at h
    rw [hd] at h
    simp [Except.isOk, Except.toBool] at h
  refine ⟨by simpa using hb, by simpa using hd, ?_⟩
  by_cases hok : allOk (dataFiles (movedOf entries)) = true
  · exact hok
  · exfalso
    have hbad := checksumFrom_error_of_bad (dataFiles (movedOf entries)) 0
      (by simpa using hok)
    rcases hck : checksumFrom 0 (dataFiles (movedOf entries)) with ⟨evs, r⟩
    rw [hck] at hbad
    simp only at hbad
    subst hbad
    unfold bagDir at h
    rw [eq_false_of_ne_true hb, eq_false_of_ne_true hd] at h
    simp only [Bool.or_self, Bool.false_eq_true, if_false] at h
    rw [hck] at h
    simp [Except.isOk, Except.toBool] at h

/-! ## Digest format -/

theorem sha256Bytes_length (m : List Nat) : (sha256Bytes m).length = 32 := by
  simp [sha256Bytes, wordBytes]

theorem flatMap_hexByte_length (l : List Nat) : (l.flatMap hexByte).length = 2 * l.length := by
  induction l with
  | nil => rfl
  | cons b rest ih => simp [hexByte, ih]; omega

theorem sha256Hex_length (m : List Nat) : (sha256Hex m).length = 64 := by
  show ((sha256Bytes m).flatMap hexByte).length = 64
  rw [flatMap_hexByte_length, sha256Bytes_length]

theorem hexDigit_lowerHex : ∀ n < 16, lowerHex (hexDigit n) = true := by decide

theorem sha256Hex_lowerHex (m : List Nat) :
    ∀ c ∈ (sha256Hex m).data, lowerHex c = true := by
  intro c hc
  have hc2 : c ∈ (sha256Bytes m).flatMap hexByte := hc
  rw [List.mem_flatMap] at hc2
  obtain ⟨b, _, hcb⟩ := hc2
  simp only [hexByte, List.mem_cons, List.mem_singleton, List.not_mem_nil, or_false] at hcb
  rcases hcb with h | h
  · rw [h]; exact hexDigit_lowerHex _ (Nat.mod_lt _ (by omega))
  · rw [h]; exact hexDigit_lowerHex _ (Nat.mod_lt _ (by omega))

/-! ## The tag-manifest sort -/

theorem takeWhile_append_stop (p : Char → Bool) (l1 : List Char) (c : Char) (l2 : List Char)
    (h1 : ∀ x ∈ l1, p x = true) (hc : p c = false) :
    (l1 ++ c :: l2).takeWhile p = l1 := by
  induction l1 with
  | nil => simp [List.takeWhile_cons, hc]
  | cons a tl ih =>
    have ha : p a = true := h1 a (List.mem_cons_self a tl)
    simp only [List.cons_append, List.takeWhile_cons, ha, if_true]
    rw [ih (fun x hx => h1 x (List.mem_cons_of_mem a hx))]

theorem lastToken_line (d name : String) (hne : name.data ≠ [])
    (hnw : ∀ c ∈ name.data, c.isWhitespace = false) :
    lastToken (d ++ "  " ++ name) = some name := by
  have hdata : (d ++ "  " ++ name).data = (d.data ++ [' ', ' ']) ++ name.data := by
    simp [String.data_append]
  unfold lastToken
  rw [hdata]
  rcases hcons : name.data.reverse with _ | ⟨c, tl⟩
  · exact absurd (by simpa using hcons) hne
  · have hcmem : c ∈ name.data := by
      rw [← List.mem_reverse, hcons]; exact List.mem_cons_self c tl
    have hcw : c.isWhitespace = false := hnw c hcmem
    rw [List.reverse_append, List.reverse_append]
    simp only [List.reverse_cons, List.reverse_nil, List.nil_append, List.cons_append,
      List.append_assoc, hcons]
    rw [List.dropWhile_cons]
    simp only [hcw, Bool.false_eq_true, if_false]
    have htw : (c :: (tl ++ (' ' :: ' ' :: d.data.reverse))).takeWhile
        (fun ch => !ch.isWhitespace) = c :: tl := by
      have hall : ∀ x ∈ c :: tl, (!x.isWhitespace) = true := by
        intro x hx
        have hxmem : x ∈ name.data := by rw [← List.mem_reverse, hcons]; exact hx
        simp [hnw x hxmem]
      have := takeWhile_append_stop (fun ch => !ch.isWhitespace) (c :: tl) ' '
        (' ' :: d.data.reverse) hall (by simp [Char.isWhitespace])
      simpa using this
    rw [htw]
    have hrev : (c :: tl).reverse = name.data := by rw [← hcons, List.reverse_reverse]
    rw [hrev]

theorem string_mk_data (s : String) : String.mk s.data = s := rfl

theorem tagLe_of_tokens (a b n1 n2 : String) (h1 : lastToken a = some n1)
    (h2 : lastToken b = some n2) (hc : charListLe n1.data n2.data = true) : tagLe a b := by
  unfold tagLe
  rw [h1, h2]
  exact hc

theorem tagEntry_split (d lit : String) (mid name : String) (hlit : lit = mid ++ name) :
    d ++ lit = d ++ mid ++ name := by
  rw [hlit, String.append_assoc]

theorem lastToken_bagInfo (d : String) :
    lastToken (d ++ "  bag-info.txt") = some "bag-info.txt" := by
  rw [tagEntry_split d "  bag-info.txt" "  " "bag-info.txt" (by decide)]
  exact lastToken_line d "bag-info.txt" (by decide) (by decide)

theorem lastToken_bagit (d : String) :
    lastToken (d ++ "  bagit.txt") = some "bagit.txt" := by
  rw [tagEntry_split d "  bagit.txt" "  " "bagit.txt" (by decide)]
  exact lastToken_line d "bagit.txt" (by decide) (by decide)

theorem lastToken_manifest (d : String) :
    lastToken (d ++ "  manifest-sha256.txt") = some "manifest-sha256.txt" := by
  rw [tagEntry_split d "  manifest-sha256.txt" "  " "manifest-sha256.txt" (by decide)]
  exact lastToken_line d "manifest-sha256.txt" (by decide) (by decide)

theorem tagSort_tagEntries (bagInfoC manifestC : String) :
    tagSort (tagEntriesFor bagInfoC manifestC) = tagEntriesFor bagInfoC manifestC := by
  apply List.Sorted.insertionSort_eq
  unfold tagEntriesFor
  refine List.Pairwise.cons ?_ (List.Pairwise.cons ?_ (List.Pairwise.cons ?_ List.Pairwise.nil))
  · intro b hb
    simp only [List.mem_cons, List.not_mem_nil, or_false] at hb
    rcases hb with hb | hb <;> subst hb
    · exact tagLe_of_tokens _ _ _ _ (lastToken_bagInfo _) (lastToken_bagit _) (by decide)
    · exact tagLe_of_tokens _ _ _ _ (lastToken_bagInfo _) (lastToken_manifest _) (by decide)
  · intro b hb
    simp only [List.mem_singleton] at hb
    subst hb
    exact tagLe_of_tokens _ _ _ _ (lastToken_bagit _) (lastToken_manifest _) (by decide)
  · intro b hb
    simp at hb

theorem bagDir_ioError (entries : List (String × FsTree)) (date path : String)
    (hb : hasEntry entries "bagit.txt" = false) (hd : hasEntry entries "data" = false)
    (hbad : allOk (dataFiles (movedOf entries)) = false) :
    (bag (.dir entries) date path).outcome = .error .IoError := by
  show (bagDir entries date path).outcome = _
  unfold bagDir
  rw [hb, hd]
  simp only [Bool.or_self, Bool.false_eq_true, if_false]
  have herr := checksumFrom_error_of_bad (dataFiles (movedOf entries)) 0 hbad
  rcases hck : checksumFrom 0 (dataFiles (movedOf entries)) with ⟨evs, r⟩
  rw [hck] at herr
  simp only at herr
  subst herr
  rfl

/-! ## Clean trees -/

theorem cleanL_mem (es : List (String × FsTree)) (h : cleanL es = true) :
    ∀ x ∈ es, x.2.cleanN = true := by
  induction es with
  | nil => intro x hx; simp at hx
  | cons y rest ih =>
    obtain ⟨n, t⟩ := y
    simp only [cleanL, Bool.and_eq_true] at h
    intro x hx
    rcases List.mem_cons.mp hx with hx | hx
    · rw [hx]; exact h.1
    · exact ih h.2 x hx

theorem cleanN_not_denied (t : FsTree) (h : t.cleanN = true) : t.isDenied = false := by
  cases t with
  | file c => rfl
  | other => rfl
  | dir es => rfl
  | denied => simp [FsTree.cleanN] at h

theorem movedOf_of_clean (es : List (String × FsTree)) (_h : cleanL es = true) :
    movedOf es = es := rfl

mutual
theorem walkNode_clean (p : String) (t : FsTree) (h : t.cleanN = true) :
    ∀ q u, (q, u) ∈ (walkNode p t).filterMap Except.toOption → u.cleanN = true := by
  cases t with
  | denied es => simp [FsTree.cleanN] at h
  | file c =>
    intro q u hm
    simp only [walkNode, List.filterMap_cons, Except.toOption, List.filterMap_nil,
      List.mem_singleton, Prod.mk.injEq] at hm
    rw [hm.2]; exact h
  | other =>
    intro q u hm
    simp only [walkNode, List.filterMap_cons, Except.toOption, List.filterMap_nil,
      List.mem_singleton, Prod.mk.injEq] at hm
    rw [hm.2]; exact h
  | dir es =>
    intro q u hm
    simp only [walkNode, List.filterMap_cons, Except.toOption, List.mem_cons,
      Prod.mk.injEq] at hm
    rcases hm with ⟨_, hu⟩ | hm
    · rw [hu]; exact h
    · exact walkList_clean p es h q u hm

theorem walkList_clean (pre : String) (es : List (String × FsTree)) (h : cleanL es = true) :
    ∀ q u, (q, u) ∈ (walkList pre es).filterMap Except.toOption → u.cleanN = true := by
  cases es with
  | nil => intro q u hm; simp [walkList] at hm
  | cons x rest =>
    obtain ⟨n, t⟩ := x
    simp only [cleanL, Bool.and_eq_true] at h
    intro q u hm
    simp only [walkList, List.filterMap_append, List.mem_append] at hm
    rcases hm with hm | hm
    · exact walkNode_clean (joinPath pre n) t h.1 q u hm
    · exact walkList_clean pre rest h.2 q u hm
end

theorem allOk_of_clean (es : List (String × FsTree)) (h : cleanL es = true) :
    allOk (dataFiles es) = true := by
  apply List.all_eq_true.mpr
  intro x hx
  obtain ⟨p, c⟩ := x
  rw [dataFiles_eq] at hx
  have hmem := mem_filterMap_fileEntry _ p c hx
  have hclean := walkList_clean "data" es h p (.file c) hmem
  cases c with
  | ok b => simp [Except.isOk, Except.toBool]
  | error e => simp [FsTree.cleanN] at hclean

/-! ## Enumeration-order equivalence -/

mutual
theorem tequiv_refl : ∀ t : FsTree, TEquiv t t
  | .file c => .file c
  | .other => .other
  | .denied es => .denied (fequiv_refl es)
  | .dir es => .dir (fequiv_refl es)

theorem fequiv_refl : ∀ es : List (String × FsTree), FEquiv es es
  | [] => .nil
  | (n, t) :: rest => .cons n (tequiv_refl t) (fequiv_refl rest)
end

theorem fequiv_hasEntry {es1 es2 : List (String × FsTree)} (h : FEquiv es1 es2) :
    ∀ n, hasEntry es1 n = hasEntry es2 n := by
  refine @FEquiv.rec (fun _ _ _ => True)
    (fun l1 l2 _ => ∀ n, hasEntry l1 n = hasEntry l2 n)
    (fun _ => trivial) trivial (fun _ _ => trivial) (fun _ _ => trivial) (fun _ => rfl)
    ?_ ?_ ?_ es1 es2 h
  · intro m t1 t2 r1 r2 _ _ _ ih n
    simp only [hasEntry, List.any_cons]
    rw [show (r1.any fun e => e.1 == n) = hasEntry r1 n from rfl,
      show (r2.any fun e => e.1 == n) = hasEntry r2 n from rfl, ih n]
  · intro x y l1 l2 _ ih n
    simp only [hasEntry, List.any_cons]
    rw [show (l1.any fun e => e.1 == n) = hasEntry l1 n from rfl,
      show (l2.any fun e => e.1 == n) = hasEntry l2 n from rfl, ih n,
      ← Bool.or_assoc, ← Bool.or_assoc, Bool.or_comm (x.1 == n) (y.1 == n)]
  · intro l1 l2 l3 _ _ ih1 ih2 n
    exact (ih1 n).trans (ih2 n)

theorem fequiv_movedOf {es1 es2 : List (String × FsTree)} (h : FEquiv es1 es2) :
    FEquiv (movedOf es1) (movedOf es2) := h

theorem filesOfNode_dir (p : String) (es : List (String × FsTree)) :
    filesOfNode p (.dir es) = filesOfList p es := by
  simp [filesOfNode, filesOfList, walkNode, List.filterMap_cons, Except.toOption, fileEntry]

theorem filesOfNode_denied (p : String) (es : List (String × FsTree)) :
    filesOfNode p (.denied es) = [] := by
  simp [filesOfNode, walkNode, List.filterMap_cons, Except.toOption, fileEntry]

theorem filesOfList_cons (pre n : String) (t : FsTree) (rest : List (String × FsTree)) :
    filesOfList pre ((n, t) :: rest) =
      filesOfNode (joinPath pre n) t ++ filesOfList pre rest := by
  simp [filesOfList, filesOfNode, walkList, List.filterMap_append]

mutual
theorem filesOfNode_sub_disk (p : String) (t : FsTree) :
    ∀ x ∈ filesOfNode p t, x ∈ diskFiles p t := by
  cases t with
  | file c =>
    intro x hx
    simpa [filesOfNode, walkNode, List.filterMap_cons, Except.toOption, fileEntry,
      diskFiles] using hx
  | other =>
    intro x hx
    simp [filesOfNode, walkNode, List.filterMap_cons, Except.toOption, fileEntry] at hx
  | denied es =>
    intro x hx
    rw [filesOfNode_denied] at hx
    simp at hx
  | dir es =>
    intro x hx
    rw [filesOfNode_dir] at hx
    exact filesOfList_sub_disk p es x hx

theorem filesOfList_sub_disk (pre : String) (es : List (String × FsTree)) :
    ∀ x ∈ filesOfList pre es, x ∈ diskFilesL pre es := by
  cases es with
  | nil => intro x hx; simp [filesOfList, walkList] at hx
  | cons e rest =>
    obtain ⟨n, t⟩ := e
    intro x hx
    rw [filesOfList_cons] at hx
    rcases List.mem_append.mp hx with hx | hx
    · exact List.mem_append.mpr (Or.inl (filesOfNode_sub_disk (joinPath pre n) t x hx))
    · exact List.mem_append.mpr (Or.inr (filesOfList_sub_disk pre rest x hx))
end

theorem fequiv_files {es1 es2 : List (String × FsTree)} (h : FEquiv es1 es2) :
    ∀ pre, (filesOfList pre es1).Perm (filesOfList pre es2) := by
  refine @FEquiv.rec
    (fun t1 t2 _ => ∀ p, (filesOfNode p t1).Perm (filesOfNode p t2))
    (fun l1 l2 _ => ∀ pre, (filesOfList pre l1).Perm (filesOfList pre l2))
    (fun c p => .refl _) (fun p => .refl _)
    ?_ ?_ (fun pre => .refl _) ?_ ?_ ?_ es1 es2 h
  · intro l1 l2 _ _ p
    rw [filesOfNode_denied, filesOfNode_denied]
  · intro l1 l2 _ ih p
    rw [filesOfNode_dir, filesOfNode_dir]
    exact ih p
  · intro n t1 t2 r1 r2 _ _ ih1 ih2 pre
    rw [filesOfList_cons, filesOfList_cons]
    exact (ih1 (joinPath pre n)).append (ih2 pre)
  · intro x y l1 l2 _ ih pre
    obtain ⟨nx, tx⟩ := x
    obtain ⟨ny, ty⟩ := y
    rw [filesOfList_cons, filesOfList_cons, filesOfList_cons, filesOfList_cons,
      ← List.append_assoc, ← List.append_assoc]
    exact List.Perm.append List.perm_append_comm (ih pre)
  · intro l1 l2 l3 _ _ ih1 ih2 pre
    exact (ih1 pre).trans (ih2 pre)

theorem dataFiles_eq_filesOfList (moved : List (String × FsTree)) :
    dataFiles moved = filesOfList "data" moved := by
  rw [dataFiles_eq]; rfl

theorem fequiv_dataFiles {es1 es2 : List (String × FsTree)} (h : FEquiv es1 es2) :
    (dataFiles (movedOf es1)).Perm (dataFiles (movedOf es2)) := by
  rw [dataFiles_eq_filesOfList, dataFiles_eq_filesOfList]
  exact fequiv_files (fequiv_movedOf h) "data"

theorem all_eq_of_perm {α : Type} (f : α → Bool) {l1 l2 : List α} (h : l1.Perm l2) :
    l1.all f = l2.all f := by
  induction h with
  | nil => rfl
  | cons a _ ih => simp [List.all_cons, ih]
  | swap a b l => simp [List.all_cons, ← Bool.and_assoc, Bool.and_comm (f b) (f a)]
  | trans _ _ ih1 ih2 => exact ih1.trans ih2

theorem sortStrings_eq_of_perm {l1 l2 : List String} (h : l1.Perm l2) :
    sortStrings l1 = sortStrings l2 :=
  List.eq_of_perm_of_sorted (((sortStrings_perm l1).trans h).trans (sortStrings_perm l2).symm)
    (sortStrings_sorted l1) (sortStrings_sorted l2)

/-! ## The claims -/

/-- Claim C5: for every path, if it does not refer to an existing directory
then `bag` fails with `NotADirectory`; otherwise, if a top-level
`bagit.txt` or `data` exists, `bag` fails with `AlreadyABag`; in both
rejection cases the call returns before performing any filesystem mutation
(the run has an empty event trace and its post-state tree is the input
tree, so no `data/` directory and no tag files are created). -/
theorem C5_validation_rejects_without_mutation :
    (∀ (root : FsTree) (date path : String), root.isDir = false →
      bag root date path = ⟨[], root, .error .NotADirectory⟩) ∧
    (∀ (entries : List (String × FsTree)) (date path : String),
      (hasEntry entries "bagit.txt" || hasEntry entries "data") = true →
      bag (.dir entries) date path = ⟨[], .dir entries, .error .AlreadyABag⟩) := by
  constructor
  · intro root date path h
    cases root with
    | dir es => simp [FsTree.isDir] at h
    | file c => rfl
    | other => rfl
    | denied => rfl
  · intro entries date path h
    show bagDir entries date path = _
    unfold bagDir
    rw [h]
    simp

/-- Witness for C5 at two concrete inputs: a regular file is rejected with
`NotADirectory`, and a directory already containing `bagit.txt` is rejected
with `AlreadyABag`, in both cases without mutation. -/
theorem C5_validation_rejects_without_mutation_witness :
    (FsTree.file (.ok [65])).isDir = false ∧
    bag (.file (.ok [65])) "2026-10-12" "/p" = ⟨[], .file (.ok [65]), .error .NotADirectory⟩ ∧
    (hasEntry [("bagit.txt", FsTree.file (.ok [1]))] "bagit.txt" ||
      hasEntry [("bagit.txt", FsTree.file (.ok [1]))] "data") = true ∧
    bag (.dir [("bagit.txt", .file (.ok [1]))]) "2026-10-12" "/p" =
      ⟨[], .dir [("bagit.txt", .file (.ok [1]))], .error .AlreadyABag⟩ :=
  ⟨rfl,
   C5_validation_rejects_without_mutation.1 (.file (.ok [65])) "2026-10-12" "/p" rfl,
   rfl,
   C5_validation_rejects_without_mutation.2 [("bagit.txt", .file (.ok [1]))]
     "2026-10-12" "/p" rfl⟩

/-- Claim C3 counterexample: the declaration written by a successful run is
the fixed string, but its byte sequence has 55 bytes, not 58 as the claim
states — shown on a concrete run over a one-file directory. -/
theorem C3_declaration_counterexample :
    (bag (.dir [("a.txt", .file (.ok [65]))]) "2026-10-12" "/p").outcome.map
      (fun o => (strBytes o.bagitTxt).length) = .ok 55 ∧ (55 : Nat) ≠ 58 :=
  ⟨rfl, by decide⟩

/-- Claim C3 (amended): on every successful `bag` run the file `bagit.txt`
is written with exactly the fixed byte sequence
`BagIt-Version: 0.97\nTag-File-Character-Encoding: UTF-8\n` (each `\n` a
single 0x0A byte) — a sequence of 55 bytes, not 58. -/
theorem C3_declaration_amended (entries : List (String × FsTree)) (date path : String)
    (h : (bag (.dir entries) date path).outcome.isOk = true) :
    (bag (.dir entries) date path).outcome.map (·.bagitTxt) = .ok bagitContent ∧
    strBytes bagitContent = bagitBytes ∧
    bagitBytes.length = 55 := by
  obtain ⟨hb, hd, hok⟩ := bag_ok_cond entries date path h
  rw [bag_eq_of_ok entries date path hb hd hok]
  exact ⟨rfl, by decide, by decide⟩

/-- Witness for the amended C3 on a concrete successful run. -/
theorem C3_declaration_amended_witness :
    (bag (.dir [("b.txt", FsTree.file (.ok [66]))]) "2026-10-12" "/w").outcome.isOk = true ∧
    ((bag (.dir [("b.txt", FsTree.file (.ok [66]))]) "2026-10-12" "/w").outcome.map
      (·.bagitTxt) = .ok bagitContent ∧
     strBytes bagitContent = bagitBytes ∧
     bagitBytes.length = 55) :=
  ⟨rfl, C3_declaration_amended [("b.txt", .file (.ok [66]))] "2026-10-12" "/w" rfl⟩

/-- Claim C9 counterexample: an entry on which the recursive enumeration
walk fails (`walkdir` yields `Err`) does not make `bag` return `IoError`;
the run succeeds and the entry is silently skipped, because the walks use
`.filter_map(|e| e.ok())`. -/
theorem C9_io_error_counterexample :
    (bag (.dir [("a.txt", .file (.ok [65])), ("sub", .dir [("x", .denied [])])])
      "2026-10-12" "/p").outcome.isOk = true ∧
    (bag (.dir [("a.txt", .file (.ok [65])), ("sub", .dir [("x", .denied [])])])
      "2026-10-12" "/p").outcome ≠ .error .IoError := by
  refine ⟨rfl, fun hcontra => ?_⟩
  have hok : (bag (.dir [("a.txt", .file (.ok [65])), ("sub", .dir [("x", .denied [])])])
      "2026-10-12" "/p").outcome.isOk = true := rfl
  rw [hcontra] at hok
  simp [Except.isOk, Except.toBool] at hok

/-- Claim C9 (amended): a failure to read a file while hashing it makes
`bag` return `IoError` (as do write, rename and `create_dir` failures,
which this model treats as infallible); but entries on which the
enumeration walks fail are silently dropped rather than reported, as the
counterexample shows. -/
theorem C9_io_error_amended (entries : List (String × FsTree)) (date path : String)
    (hb : hasEntry entries "bagit.txt" = false) (hd : hasEntry entries "data" = false)
    (hbad : allOk (dataFiles (movedOf entries)) = false) :
    (bag (.dir entries) date path).outcome = .error .IoError :=
  bagDir_ioError entries date path hb hd hbad

/-- Witness for the amended C9: a directory with one unreadable file is
rejected with `IoError`. -/
theorem C9_io_error_amended_witness :
    hasEntry [("bad.txt", FsTree.file (.error ()))] "bagit.txt" = false ∧
    hasEntry [("bad.txt", FsTree.file (.error ()))] "data" = false ∧
    allOk (dataFiles (movedOf [("bad.txt", FsTree.file (.error ()))])) = false ∧
    (bag (.dir [("bad.txt", .file (.error ()))]) "2026-10-12" "/w").outcome =
      .error .IoError :=
  ⟨rfl, rfl, rfl,
   C9_io_error_amended [("bad.txt", .file (.error ()))] "2026-10-12" "/w" rfl rfl rfl⟩

/-- Claim C4: after a successful run, `tagmanifest-sha256.txt` contains
exactly three manifest-form lines, one each for `bag-info.txt`, `bagit.txt`
and `manifest-sha256.txt` (not itself), sorted by the filename field in the
order `bag-info.txt` < `bagit.txt` < `manifest-sha256.txt`, joined with
`\n` plus a final `\n`, where each hash is the SHA-256 of the exact
in-memory byte sequence just written for that tag file. -/
theorem C4_tagmanifest (entries : List (String × FsTree)) (date path : String)
    (h : (bag (.dir entries) date path).outcome.isOk = true) :
    (bag (.dir entries) date path).outcome.map (·.tagmanifestTxt) =
      .ok (sha256HexStr (bagInfoTxtFor entries date) ++ "  bag-info.txt" ++ "\n" ++
           sha256HexStr bagitContent ++ "  bagit.txt" ++ "\n" ++
           sha256HexStr (manifestTxtFor entries) ++ "  manifest-sha256.txt" ++ "\n") ∧
    (bag (.dir entries) date path).outcome.map (·.bagInfoTxt) =
      .ok (bagInfoTxtFor entries date) ∧
    (bag (.dir entries) date path).outcome.map (·.bagitTxt) = .ok bagitContent ∧
    (bag (.dir entries) date path).outcome.map (·.manifestTxt) =
      .ok (manifestTxtFor entries) := by
  obtain ⟨hb, hd, hok⟩ := bag_ok_cond entries date path h
  rw [bag_eq_of_ok entries date path hb hd hok]
  refine ⟨?_, rfl, rfl, rfl⟩
  apply congrArg Except.ok
  show tagmanifestTxtFor entries date = _
  unfold tagmanifestTxtFor
  rw [tagSort_tagEntries]
  simp [tagEntriesFor, joinSep, String.append_assoc]

/-- Witness for C4 on a concrete successful run. -/
theorem C4_tagmanifest_witness :
    (bag (.dir [("c.txt", FsTree.file (.ok [67]))]) "2026-10-12" "/w").outcome.isOk = true ∧
    ((bag (.dir [("c.txt", FsTree.file (.ok [67]))]) "2026-10-12" "/w").outcome.map
        (·.tagmanifestTxt) =
      .ok (sha256HexStr (bagInfoTxtFor [("c.txt", FsTree.file (.ok [67]))] "2026-10-12") ++
           "  bag-info.txt" ++ "\n" ++
           sha256HexStr bagitContent ++ "  bagit.txt" ++ "\n" ++
           sha256HexStr (manifestTxtFor [("c.txt", FsTree.file (.ok [67]))]) ++
           "  manifest-sha256.txt" ++ "\n") ∧
     (bag (.dir [("c.txt", FsTree.file (.ok [67]))]) "2026-10-12" "/w").outcome.map
        (·.bagInfoTxt) = .ok (bagInfoTxtFor [("c.txt", FsTree.file (.ok [67]))] "2026-10-12") ∧
     (bag (.dir [("c.txt", FsTree.file (.ok [67]))]) "2026-10-12" "/w").outcome.map
        (·.bagitTxt) = .ok bagitContent ∧
     (bag (.dir [("c.txt", FsTree.file (.ok [67]))]) "2026-10-12" "/w").outcome.map
        (·.manifestTxt) = .ok (manifestTxtFor [("c.txt", FsTree.file (.ok [67]))])) :=
  ⟨rfl, C4_tagmanifest [("c.txt", .file (.ok [67]))] "2026-10-12" "/w" rfl⟩

/-- Claim C1 counterexample: a successful run over a directory containing
an unreadable subdirectory with an on-disk regular file — the run
succeeds, the resulting `data/` holds two on-disk regular files, but the
manifest has a single line: a regular file under `data/` of the bag has
no manifest line, refuting the claim's «one line for each regular file
under data/». -/
theorem C1_manifest_counterexample :
    (bag (.dir [("a.txt", FsTree.file (.ok [65])),
      ("sub", .denied [("f.txt", .file (.ok [70, 71]))])]) "2026-10-12" "/p").outcome.isOk
      = true ∧
    dataDirOf (bag (.dir [("a.txt", FsTree.file (.ok [65])),
      ("sub", .denied [("f.txt", .file (.ok [70, 71]))])]) "2026-10-12" "/p").post =
      [("a.txt", FsTree.file (.ok [65])),
       ("sub", .denied [("f.txt", .file (.ok [70, 71]))])] ∧
    (manifestLinesFor [("a.txt", FsTree.file (.ok [65])),
      ("sub", .denied [("f.txt", .file (.ok [70, 71]))])]).length = 1 ∧
    (diskFilesL "data" [("a.txt", FsTree.file (.ok [65])),
      ("sub", .denied [("f.txt", .file (.ok [70, 71]))])]).length = 2 :=
  ⟨rfl, rfl, rfl, rfl⟩

/-- Claim C1 (amended): after a successful run, `manifest-sha256.txt` is
the sorted line list joined by `\n` with one final `\n`; there is exactly
one line per regular file *that the recursive walk of `data/` enumerates*
and no others, each line naming a genuine on-disk regular file — but
regular files inside a directory whose enumeration fails are silently
omitted (the walk's `Err` is dropped by `.filter_map(|e| e.ok())`; see the
counterexample); every line is
`<64 lowercase hex chars><two spaces><path>` with the path forward-slash
separated, relative to the bag root and beginning with `data/`; and the
lines are sorted (`strLe` is the code-point order, which on UTF-8 strings
is the bytewise lexicographic order that Rust's `sort` uses). -/
theorem C1_manifest_format (entries : List (String × FsTree)) (date path : String)
    (h : (bag (.dir entries) date path).outcome.isOk = true) :
    (bag (.dir entries) date path).outcome.map (·.manifestTxt) =
      .ok (joinSep "\n" (manifestLinesFor entries) ++ "\n") ∧
    dataDirOf (bag (.dir entries) date path).post = movedOf entries ∧
    List.Sorted strLe (manifestLinesFor entries) ∧
    (manifestLinesFor entries).Perm ((dataFiles (movedOf entries)).map lineOf) ∧
    (∀ x ∈ dataFiles (movedOf entries), x ∈ diskFilesL "data" (movedOf entries)) ∧
    (∀ l ∈ manifestLinesFor entries, ∃ hx p,
      l = hx ++ "  " ++ p ∧ hx.length = 64 ∧ (∀ c ∈ hx.data, lowerHex c = true) ∧
      ∃ r, p = "data/" ++ r) := by
  obtain ⟨hb, hd, hok⟩ := bag_ok_cond entries date path h
  rw [bag_eq_of_ok entries date path hb hd hok]
  refine ⟨rfl, ?_, sortStrings_sorted _, sortStrings_perm _, ?_, ?_⟩
  · simp [dataDirOf, postFor, List.find?]
  · intro x hx
    rw [dataFiles_eq_filesOfList] at hx
    exact filesOfList_sub_disk "data" (movedOf entries) x hx
  · intro l hl
    have hl2 : l ∈ (dataFiles (movedOf entries)).map lineOf :=
      (sortStrings_perm _).subset hl
    rw [List.mem_map] at hl2
    obtain ⟨⟨p0, c⟩, hmem, hline⟩ := hl2
    obtain ⟨r, hr⟩ := dataFiles_path (movedOf entries) p0 c hmem
    refine ⟨sha256Hex (okBytes c), replBack p0, ?_, sha256Hex_length _,
      sha256Hex_lowerHex _, ?_⟩
    · rw [← hline]; rfl
    · refine ⟨replBack r, ?_⟩
      rw [hr, replBack_append, replBack_data_lit]

/-- Witness for C1 on a concrete successful run over a nested tree. -/
theorem C1_manifest_format_witness :
    (bag (.dir [("x.txt", FsTree.file (.ok [104, 105])),
      ("sub", .dir [("y.txt", .file (.ok [116]))])]) "2026-10-12" "/w").outcome.isOk = true ∧
    ((bag (.dir [("x.txt", FsTree.file (.ok [104, 105])),
        ("sub", .dir [("y.txt", .file (.ok [116]))])]) "2026-10-12" "/w").outcome.map
        (·.manifestTxt) =
      .ok (joinSep "\n" (manifestLinesFor [("x.txt", FsTree.file (.ok [104, 105])),
        ("sub", .dir [("y.txt", .file (.ok [116]))])]) ++ "\n") ∧
     dataDirOf (bag (.dir [("x.txt", FsTree.file (.ok [104, 105])),
        ("sub", .dir [("y.txt", .file (.ok [116]))])]) "2026-10-12" "/w").post =
       movedOf [("x.txt", FsTree.file (.ok [104, 105])),
        ("sub", .dir [("y.txt", .file (.ok [116]))])] ∧
     List.Sorted strLe (manifestLinesFor [("x.txt", FsTree.file (.ok [104, 105])),
        ("sub", .dir [("y.txt", .file (.ok [116]))])]) ∧
     (manifestLinesFor [("x.txt", FsTree.file (.ok [104, 105])),
        ("sub", .dir [("y.txt", .file (.ok [116]))])]).Perm
       ((dataFiles (movedOf [("x.txt", FsTree.file (.ok [104, 105])),
        ("sub", .dir [("y.txt", .file (.ok [116]))])])).map lineOf) ∧
     (∀ x ∈ dataFiles (movedOf [("x.txt", FsTree.file (.ok [104, 105])),
        ("sub", .dir [("y.txt", .file (.ok [116]))])]),
       x ∈ diskFilesL "data" (movedOf [("x.txt", FsTree.file (.ok [104, 105])),
        ("sub", .dir [("y.txt", .file (.ok [116]))])])) ∧
     (∀ l ∈ manifestLinesFor [("x.txt", FsTree.file (.ok [104, 105])),
        ("sub", .dir [("y.txt", .file (.ok [116]))])], ∃ hx p,
       l = hx ++ "  " ++ p ∧ hx.length = 64 ∧ (∀ c ∈ hx.data, lowerHex c = true) ∧
       ∃ r, p = "data/" ++ r)) :=
  ⟨rfl, C1_manifest_format [("x.txt", .file (.ok [104, 105])),
    ("sub", .dir [("y.txt", .file (.ok [116]))])] "2026-10-12" "/w" rfl⟩

/-- Claim C2 counterexample: on the same kind of run as the C1
counterexample — an unreadable subdirectory whose on-disk regular file is
relocated under `data/` but never enumerated — the run succeeds with
`Payload-Oxum` counting 1 byte and 1 file, while `data/` actually holds 2
regular files totalling 4 bytes: the claim's «sum of the sizes of all
regular files under data/» fails. -/
theorem C2_payload_oxum_counterexample :
    (bag (.dir [("a.txt", FsTree.file (.ok [65])),
      ("sub", .denied [("g.txt", .file (.ok [71, 72, 73]))])]) "2026-10-12"
      "/p").outcome.isOk = true ∧
    (bag (.dir [("a.txt", FsTree.file (.ok [65])),
      ("sub", .denied [("g.txt", .file (.ok [71, 72, 73]))])]) "2026-10-12"
      "/p").outcome.map (·.totalBytes) = .ok 1 ∧
    (bag (.dir [("a.txt", FsTree.file (.ok [65])),
      ("sub", .denied [("g.txt", .file (.ok [71, 72, 73]))])]) "2026-10-12"
      "/p").outcome.map (·.fileCount) = .ok 1 ∧
    sizesSum (diskFilesL "data" [("a.txt", FsTree.file (.ok [65])),
      ("sub", .denied [("g.txt", .file (.ok [71, 72, 73]))])]) = 4 ∧
    (diskFilesL "data" [("a.txt", FsTree.file (.ok [65])),
      ("sub", .denied [("g.txt", .file (.ok [71, 72, 73]))])]).length = 2 :=
  ⟨rfl, rfl, rfl, rfl, rfl⟩

/-- Claim C2 (amended): after a successful run, the `Payload-Oxum` field
written to `bag-info.txt` is `<B>.<N>` where `B` is the sum of the byte
sizes and `N` the number of the regular files *that the recursive walk of
`data/` enumerates* (directories, `other` non-regular entries and
walk-error entries contribute to neither count — so on-disk files inside
a directory whose enumeration fails are excluded from both, see the
counterexample), and `N` equals the number of lines of
`manifest-sha256.txt`. -/
theorem C2_payload_oxum (entries : List (String × FsTree)) (date path : String)
    (h : (bag (.dir entries) date path).outcome.isOk = true) :
    (bag (.dir entries) date path).outcome.map (·.bagInfoTxt) =
      .ok ("Bag-Software-Agent: baggie 0.1.1\nBagging-Date: " ++ date ++
           "\nPayload-Oxum: " ++ toString (sizesSum (dataFiles (movedOf entries))) ++ "." ++
           toString (dataFiles (movedOf entries)).length ++ "\n") ∧
    (bag (.dir entries) date path).outcome.map (·.totalBytes) =
      .ok (sizesSum (dataFiles (movedOf entries))) ∧
    (bag (.dir entries) date path).outcome.map (·.fileCount) =
      .ok (dataFiles (movedOf entries)).length ∧
    dataDirOf (bag (.dir entries) date path).post = movedOf entries ∧
    (bag (.dir entries) date path).outcome.map (·.manifestTxt) =
      .ok (joinSep "\n" (manifestLinesFor entries) ++ "\n") ∧
    (manifestLinesFor entries).length = (dataFiles (movedOf entries)).length := by
  obtain ⟨hb, hd, hok⟩ := bag_ok_cond entries date path h
  rw [bag_eq_of_ok entries date path hb hd hok]
  refine ⟨rfl, rfl, rfl, by simp [dataDirOf, postFor, List.find?], rfl, ?_⟩
  rw [manifestLinesFor, (sortStrings_perm _).length_eq, List.length_map]

/-- Witness for C2 on a concrete successful run. -/
theorem C2_payload_oxum_witness :
    (bag (.dir [("a.txt", FsTree.file (.ok [65])), ("b.txt", .file (.ok [66]))])
      "2026-10-12" "/w").outcome.isOk = true ∧
    ((bag (.dir [("a.txt", FsTree.file (.ok [65])), ("b.txt", .file (.ok [66]))])
        "2026-10-12" "/w").outcome.map (·.bagInfoTxt) =
      .ok ("Bag-Software-Agent: baggie 0.1.1\nBagging-Date: " ++ "2026-10-12" ++
           "\nPayload-Oxum: " ++
           toString (sizesSum (dataFiles (movedOf [("a.txt", FsTree.file (.ok [65])),
             ("b.txt", .file (.ok [66]))]))) ++ "." ++
           toString (dataFiles (movedOf [("a.txt", FsTree.file (.ok [65])),
             ("b.txt", .file (.ok [66]))])).length ++ "\n") ∧
     (bag (.dir [("a.txt", FsTree.file (.ok [65])), ("b.txt", .file (.ok [66]))])
        "2026-10-12" "/w").outcome.map (·.totalBytes) =
       .ok (sizesSum (dataFiles (movedOf [("a.txt", FsTree.file (.ok [65])),
         ("b.txt", .file (.ok [66]))]))) ∧
     (bag (.dir [("a.txt", FsTree.file (.ok [65])), ("b.txt", .file (.ok [66]))])
        "2026-10-12" "/w").outcome.map (·.fileCount) =
       .ok (dataFiles (movedOf [("a.txt", FsTree.file (.ok [65])),
         ("b.txt", .file (.ok [66]))])).length ∧
     dataDirOf (bag (.dir [("a.txt", FsTree.file (.ok [65])), ("b.txt", .file (.ok [66]))])
        "2026-10-12" "/w").post =
       movedOf [("a.txt", FsTree.file (.ok [65])), ("b.txt", .file (.ok [66]))] ∧
     (bag (.dir [("a.txt", FsTree.file (.ok [65])), ("b.txt", .file (.ok [66]))])
        "2026-10-12" "/w").outcome.map (·.manifestTxt) =
       .ok (joinSep "\n" (manifestLinesFor [("a.txt", FsTree.file (.ok [65])),
         ("b.txt", .file (.ok [66]))]) ++ "\n") ∧
     (manifestLinesFor [("a.txt", FsTree.file (.ok [65])),
       ("b.txt", .file (.ok [66]))]).length =
       (dataFiles (movedOf [("a.txt", FsTree.file (.ok [65])),
         ("b.txt", .file (.ok [66]))])).length) :=
  ⟨rfl, C2_payload_oxum [("a.txt", .file (.ok [65])), ("b.txt", .file (.ok [66]))]
    "2026-10-12" "/w" rfl⟩

theorem bag_no_error_event (root : FsTree) (date path : String) :
    ∀ m, Progress.Error m ∉ (bag root date path).events := by
  intro m
  cases root with
  | file c => simp [bag]
  | other => simp [bag]
  | denied => simp [bag]
  | dir entries =>
    show Progress.Error m ∉ (bagDir entries date path).events
    unfold bagDir
    by_cases hcond : (hasEntry entries "bagit.txt" || hasEntry entries "data") = true
    · rw [hcond]; simp
    · rw [eq_false_of_ne_true hcond]
      simp only [Bool.false_eq_true, if_false]
      rcases hck : checksumFrom 0 (dataFiles (movedOf entries)) with ⟨evs, r⟩
      have hevshape : ∀ e ∈ evs, ∃ j p, e = .Checksumming j p := by
        intro e he
        apply mem_checksumFrom_events (dataFiles (movedOf entries)) 0
        rw [hck]; exact he
      cases r with
      | error u =>
        show Progress.Error m ∉ Progress.Started (numFilesW entries) ::
          (moveEvents 0 ((movedOf entries).map (·.1)) ++ evs)
        intro hmem
        rcases List.mem_cons.mp hmem with hmem | hmem
        · simp at hmem
        rcases List.mem_append.mp hmem with hmem | hmem
        · obtain ⟨j, p, hjp⟩ := mem_moveEvents _ 0 _ hmem
          simp at hjp
        · obtain ⟨j, p, hjp⟩ := hevshape _ hmem
          simp at hjp
      | ok v =>
        obtain ⟨ms, b, n⟩ := v
        show Progress.Error m ∉ Progress.Started (numFilesW entries) ::
          (moveEvents 0 ((movedOf entries).map (·.1)) ++ evs ++ [Progress.Done path])
        intro hmem
        rcases List.mem_cons.mp hmem with hmem | hmem
        · simp at hmem
        rcases List.mem_append.mp hmem with hmem | hmem
        · rcases List.mem_append.mp hmem with hmem | hmem
          · obtain ⟨j, p, hjp⟩ := mem_moveEvents _ 0 _ hmem
            simp at hjp
          · obtain ⟨j, p, hjp⟩ := hevshape _ hmem
            simp at hjp
        · simp at hmem

/-- Claim C7: in every run, the Bagger never sends an `Error` event on the
channel (errors are only returned as the function's result); on a
successful run the event sequence starts with `Started` before any
`Moving` or `Checksumming` event (it is literally the first event), and
`Done` with the bag path is the final event, emitted after the tag
manifest has been constructed. -/
theorem C7_progress_protocol (root : FsTree) (date path : String) :
    (∀ m, Progress.Error m ∉ (bag root date path).events) ∧
    ((bag root date path).outcome.isOk = true →
      (bag root date path).events.head? =
        some (.Started (numFilesW (topEntriesOf root))) ∧
      (bag root date path).events.getLast? = some (.Done path)) := by
  refine ⟨bag_no_error_event root date path, fun hok => ?_⟩
  cases root with
  | file c => simp [bag, Except.isOk, Except.toBool] at hok
  | other => simp [bag, Except.isOk, Except.toBool] at hok
  | denied => simp [bag, Except.isOk, Except.toBool] at hok
  | dir entries =>
    obtain ⟨hb, hd, hokk⟩ := bag_ok_cond entries date path hok
    rw [bag_eq_of_ok entries date path hb hd hokk]
    refine ⟨rfl, ?_⟩
    show (eventsFor entries path).getLast? = _
    unfold eventsFor
    rw [show Progress.Started (numFilesW entries) ::
        (moveEvents 0 ((movedOf entries).map (·.1)) ++
          ckEvents 0 (dataFiles (movedOf entries)) ++ [Progress.Done path]) =
        (Progress.Started (numFilesW entries) ::
          (moveEvents 0 ((movedOf entries).map (·.1)) ++
            ckEvents 0 (dataFiles (movedOf entries)))) ++ [Progress.Done path] from by simp]
    exact List.getLast?_concat _

/-- Witness for C7 on a concrete successful run. -/
theorem C7_progress_protocol_witness :
    Progress.Error "boom" ∉
      (bag (.dir [("d.txt", FsTree.file (.ok [68]))]) "2026-10-12" "/w").events ∧
    ((bag (.dir [("d.txt", FsTree.file (.ok [68]))]) "2026-10-12" "/w").outcome.isOk =
      true) ∧
    (bag (.dir [("d.txt", FsTree.file (.ok [68]))]) "2026-10-12" "/w").events.head? =
      some (.Started (numFilesW (topEntriesOf (.dir [("d.txt", FsTree.file (.ok [68]))])))) ∧
    (bag (.dir [("d.txt", FsTree.file (.ok [68]))]) "2026-10-12" "/w").events.getLast? =
      some (.Done "/w") :=
  ⟨(C7_progress_protocol (.dir [("d.txt", .file (.ok [68]))]) "2026-10-12" "/w").1 "boom",
   rfl,
   ((C7_progress_protocol (.dir [("d.txt", .file (.ok [68]))]) "2026-10-12" "/w").2 rfl).1,
   ((C7_progress_protocol (.dir [("d.txt", .file (.ok [68]))]) "2026-10-12" "/w").2 rfl).2⟩

/-- Claim C8: across a successful run, the `current` fields of the `Moving`
events are exactly `1, 2, …, N` in order (`N` the number of relocated
top-level entries) and those of the `Checksumming` events are exactly
`1, 2, …, file_count` in order — strictly increasing with no gaps. -/
theorem C8_progress_indices (entries : List (String × FsTree)) (date path : String)
    (h : (bag (.dir entries) date path).outcome.isOk = true) :
    (bag (.dir entries) date path).events.filterMap mvIdx =
      List.range' 1 (movedOf entries).length ∧
    (bag (.dir entries) date path).events.filterMap ckIdx =
      List.range' 1 (dataFiles (movedOf entries)).length ∧
    (bag (.dir entries) date path).outcome.map (·.fileCount) =
      .ok (dataFiles (movedOf entries)).length := by
  obtain ⟨hb, hd, hok⟩ := bag_ok_cond entries date path h
  rw [bag_eq_of_ok entries date path hb hd hok]
  refine ⟨?_, ?_, rfl⟩
  · show (eventsFor entries path).filterMap mvIdx = _
    unfold eventsFor
    simp only [List.filterMap_cons, List.filterMap_append, mvIdx,
      moveEvents_filterMap_mvIdx, ckEvents_filterMap_mvIdx]
    simp [List.length_map]
  · show (eventsFor entries path).filterMap ckIdx = _
    unfold eventsFor
    simp only [List.filterMap_cons, List.filterMap_append, ckIdx,
      moveEvents_filterMap_ckIdx, ckEvents_filterMap_ckIdx]
    simp

/-- Witness for C8 on a concrete successful run with one moved entry
containing two files. -/
theorem C8_progress_indices_witness :
    (bag (.dir [("sub", FsTree.dir [("a.txt", .file (.ok [65])),
      ("b.txt", .file (.ok [66]))])]) "2026-10-12" "/w").outcome.isOk = true ∧
    ((bag (.dir [("sub", FsTree.dir [("a.txt", .file (.ok [65])),
        ("b.txt", .file (.ok [66]))])]) "2026-10-12" "/w").events.filterMap mvIdx =
      List.range' 1 (movedOf [("sub", FsTree.dir [("a.txt", .file (.ok [65])),
        ("b.txt", .file (.ok [66]))])]).length ∧
     (bag (.dir [("sub", FsTree.dir [("a.txt", .file (.ok [65])),
        ("b.txt", .file (.ok [66]))])]) "2026-10-12" "/w").events.filterMap ckIdx =
      List.range' 1 (dataFiles (movedOf [("sub", FsTree.dir [("a.txt", .file (.ok [65])),
        ("b.txt", .file (.ok [66]))])])).length ∧
     (bag (.dir [("sub", FsTree.dir [("a.txt", .file (.ok [65])),
        ("b.txt", .file (.ok [66]))])]) "2026-10-12" "/w").outcome.map (·.fileCount) =
      .ok (dataFiles (movedOf [("sub", FsTree.dir [("a.txt", .file (.ok [65])),
        ("b.txt", .file (.ok [66]))])])).length) :=
  ⟨rfl, C8_progress_indices [("sub", .dir [("a.txt", .file (.ok [65])),
    ("b.txt", .file (.ok [66]))])] "2026-10-12" "/w" rfl⟩

/-- Claim C10: for an input directory whose tree contains only (readable)
regular files and subdirectories, the `total_files` value carried by the
`Started` event equals the number of `Checksumming` events subsequently
emitted and equals the number of entries of `manifest-sha256.txt`, even
though the two counts come from separate walks (one over the original
tree, one over `data/` after relocation).  The validation hypotheses make
the run reach the enumeration at all. -/
theorem C10_started_total_matches (entries : List (String × FsTree)) (date path : String)
    (hclean : cleanL entries = true)
    (hb : hasEntry entries "bagit.txt" = false)
    (hd : hasEntry entries "data" = false) :
    (bag (.dir entries) date path).outcome.isOk = true ∧
    (bag (.dir entries) date path).events.head? = some (.Started (numFilesW entries)) ∧
    ((bag (.dir entries) date path).events.filterMap ckIdx).length = numFilesW entries ∧
    (bag (.dir entries) date path).outcome.map (·.fileCount) = .ok (numFilesW entries) ∧
    (manifestLinesFor entries).length = numFilesW entries := by
  have hok : allOk (dataFiles (movedOf entries)) = true := by
    rw [movedOf_of_clean entries hclean]
    exact allOk_of_clean entries hclean
  have hlen : (dataFiles (movedOf entries)).length = numFilesW entries :=
    dataFiles_length entries
  rw [bag_eq_of_ok entries date path hb hd hok]
  refine ⟨rfl, rfl, ?_, ?_, ?_⟩
  · show ((eventsFor entries path).filterMap ckIdx).length = _
    unfold eventsFor
    simp only [List.filterMap_cons, List.filterMap_append, ckIdx,
      moveEvents_filterMap_ckIdx, ckEvents_filterMap_ckIdx]
    simp [hlen]
  · show Except.ok (outputsFor entries date).fileCount = _
    rw [show (outputsFor entries date).fileCount =
      (dataFiles (movedOf entries)).length from rfl, hlen]
  · rw [manifestLinesFor, (sortStrings_perm _).length_eq, List.length_map, hlen]

/-- Witness for C10 on a concrete clean nested tree with two files. -/
theorem C10_started_total_matches_witness :
    cleanL [("a.txt", FsTree.file (.ok [65])),
      ("sub", .dir [("n.txt", .file (.ok [1, 2]))])] = true ∧
    hasEntry [("a.txt", FsTree.file (.ok [65])),
      ("sub", .dir [("n.txt", .file (.ok [1, 2]))])] "bagit.txt" = false ∧
    hasEntry [("a.txt", FsTree.file (.ok [65])),
      ("sub", .dir [("n.txt", .file (.ok [1, 2]))])] "data" = false ∧
    ((bag (.dir [("a.txt", FsTree.file (.ok [65])),
        ("sub", .dir [("n.txt", .file (.ok [1, 2]))])]) "2026-10-12" "/w").outcome.isOk =
      true ∧
     (bag (.dir [("a.txt", FsTree.file (.ok [65])),
        ("sub", .dir [("n.txt", .file (.ok [1, 2]))])]) "2026-10-12" "/w").events.head? =
      some (.Started (numFilesW [("a.txt", FsTree.file (.ok [65])),
        ("sub", .dir [("n.txt", .file (.ok [1, 2]))])])) ∧
     ((bag (.dir [("a.txt", FsTree.file (.ok [65])),
        ("sub", .dir [("n.txt", .file (.ok [1, 2]))])]) "2026-10-12"
          "/w").events.filterMap ckIdx).length =
      numFilesW [("a.txt", FsTree.file (.ok [65])),
        ("sub", .dir [("n.txt", .file (.ok [1, 2]))])] ∧
     (bag (.dir [("a.txt", FsTree.file (.ok [65])),
        ("sub", .dir [("n.txt", .file (.ok [1, 2]))])]) "2026-10-12" "/w").outcome.map
        (·.fileCount) =
      .ok (numFilesW [("a.txt", FsTree.file (.ok [65])),
        ("sub", .dir [("n.txt", .file (.ok [1, 2]))])]) ∧
     (manifestLinesFor [("a.txt", FsTree.file (.ok [65])),
        ("sub", .dir [("n.txt", .file (.ok [1, 2]))])]).length =
      numFilesW [("a.txt", FsTree.file (.ok [65])),
        ("sub", .dir [("n.txt", .file (.ok [1, 2]))])]) :=
  ⟨rfl, rfl, rfl,
   C10_started_total_matches [("a.txt", .file (.ok [65])),
     ("sub", .dir [("n.txt", .file (.ok [1, 2]))])] "2026-10-12" "/w" rfl rfl rfl⟩

/-- Claim C6: two runs over input trees with identical structure and file
contents, on the same date, produce byte-identical `bagit.txt`,
`manifest-sha256.txt` and `tagmanifest-sha256.txt`, regardless of the
order in which the directory walk enumerates entries (`FEquiv` relates
trees equal up to recursive reordering of directory child lists) — no
success hypothesis is needed, because whether the run succeeds is itself
enumeration-order independent. -/
theorem C6_determinism (es1 es2 : List (String × FsTree)) (date path1 path2 : String)
    (h : FEquiv es1 es2) :
    (bag (.dir es1) date path1).outcome.map (·.bagitTxt) =
      (bag (.dir es2) date path2).outcome.map (·.bagitTxt) ∧
    (bag (.dir es1) date path1).outcome.map (·.manifestTxt) =
      (bag (.dir es2) date path2).outcome.map (·.manifestTxt) ∧
    (bag (.dir es1) date path1).outcome.map (·.tagmanifestTxt) =
      (bag (.dir es2) date path2).outcome.map (·.tagmanifestTxt) := by
  have hfiles := fequiv_dataFiles h
  have hman : manifestTxtFor es1 = manifestTxtFor es2 := by
    unfold manifestTxtFor manifestLinesFor
    rw [sortStrings_eq_of_perm (hfiles.map lineOf)]
  have hB : sizesSum (dataFiles (movedOf es1)) = sizesSum (dataFiles (movedOf es2)) := by
    unfold sizesSum
    exact (hfiles.map _).sum_eq
  have hN : (dataFiles (movedOf es1)).length = (dataFiles (movedOf es2)).length :=
    hfiles.length_eq
  have hinfo : bagInfoTxtFor es1 date = bagInfoTxtFor es2 date := by
    unfold bagInfoTxtFor
    rw [hB, hN]
  have htag : tagmanifestTxtFor es1 date = tagmanifestTxtFor es2 date := by
    unfold tagmanifestTxtFor
    rw [hinfo, hman]
  by_cases hcond : (hasEntry es1 "bagit.txt" || hasEntry es1 "data") = true
  · have hcond2 : (hasEntry es2 "bagit.txt" || hasEntry es2 "data") = true := by
      rw [← fequiv_hasEntry h "bagit.txt", ← fequiv_hasEntry h "data"]
      exact hcond
    have e1 : bag (.dir es1) date path1 = ⟨[], .dir es1, .error .AlreadyABag⟩ := by
      show bagDir es1 date path1 = _
      unfold bagDir
      rw [hcond]
      simp
    have e2 : bag (.dir es2) date path2 = ⟨[], .dir es2, .error .AlreadyABag⟩ := by
      show bagDir es2 date path2 = _
      unfold bagDir
      rw [hcond2]
      simp
    rw [e1, e2]
    exact ⟨rfl, rfl, rfl⟩
  · obtain ⟨hb1, hd1⟩ := Bool.or_eq_false_iff.mp (eq_false_of_ne_true hcond)
    have hb2 : hasEntry es2 "bagit.txt" = false := by
      rw [← fequiv_hasEntry h "bagit.txt"]; exact hb1
    have hd2 : hasEntry es2 "data" = false := by
      rw [← fequiv_hasEntry h "data"]; exact hd1
    have hallEq : allOk (dataFiles (movedOf es1)) = allOk (dataFiles (movedOf es2)) :=
      all_eq_of_perm _ hfiles
    by_cases hok1 : allOk (dataFiles (movedOf es1)) = true
    · have hok2 : allOk (dataFiles (movedOf es2)) = true := by rw [← hallEq]; exact hok1
      rw [bag_eq_of_ok es1 date path1 hb1 hd1 hok1,
        bag_eq_of_ok es2 date path2 hb2 hd2 hok2]
      exact ⟨rfl, congrArg Except.ok hman, congrArg Except.ok htag⟩
    · have hbad1 := eq_false_of_ne_true hok1
      have hbad2 : allOk (dataFiles (movedOf es2)) = false := by rw [← hallEq]; exact hbad1
      have o1 := bagDir_ioError es1 date path1 hb1 hd1 hbad1
      have o2 := bagDir_ioError es2 date path2 hb2 hd2 hbad2
      rw [o1, o2]
      exact ⟨rfl, rfl, rfl⟩

/-- Witness for C6: the same two files enumerated in the two possible
orders give identical tag-file bytes. -/
theorem C6_determinism_witness :
    FEquiv [("a.txt", FsTree.file (.ok [65])), ("b.txt", FsTree.file (.ok [66]))]
      [("b.txt", FsTree.file (.ok [66])), ("a.txt", FsTree.file (.ok [65]))] ∧
    ((bag (.dir [("a.txt", FsTree.file (.ok [65])), ("b.txt", FsTree.file (.ok [66]))])
        "2026-10-12" "/w1").outcome.map (·.bagitTxt) =
      (bag (.dir [("b.txt", FsTree.file (.ok [66])), ("a.txt", FsTree.file (.ok [65]))])
        "2026-10-12" "/w2").outcome.map (·.bagitTxt) ∧
     (bag (.dir [("a.txt", FsTree.file (.ok [65])), ("b.txt", FsTree.file (.ok [66]))])
        "2026-10-12" "/w1").outcome.map (·.manifestTxt) =
      (bag (.dir [("b.txt", FsTree.file (.ok [66])), ("a.txt", FsTree.file (.ok [65]))])
        "2026-10-12" "/w2").outcome.map (·.manifestTxt) ∧
     (bag (.dir [("a.txt", FsTree.file (.ok [65])), ("b.txt", FsTree.file (.ok [66]))])
        "2026-10-12" "/w1").outcome.map (·.tagmanifestTxt) =
      (bag (.dir [("b.txt", FsTree.file (.ok [66])), ("a.txt", FsTree.file (.ok [65]))])
        "2026-10-12" "/w2").outcome.map (·.tagmanifestTxt)) :=
  ⟨.swap ("a.txt", .file (.ok [65])) ("b.txt", .file (.ok [66])) .nil,
   C6_determinism [("a.txt", .file (.ok [65])), ("b.txt", .file (.ok [66]))]
     [("b.txt", .file (.ok [66])), ("a.txt", .file (.ok [65]))] "2026-10-12" "/w1" "/w2"
     (.swap ("a.txt", .file (.ok [65])) ("b.txt", .file (.ok [66])) .nil)⟩
